import Mathlib

/-!
Verification development for the receipt-printer rendering/encoding pipeline.

The definitions below are a shallow embedding of the Python sources:
  * `app/printer/escpos.py`   — the ESC/POS command builder (`ESCPOSBuilder`),
  * `app/printer/renderer.py` — the template DSL renderer (`TemplateRenderer`),
  * `app/printer/connection.py` — the transport contract (`PrinterConnection.print_data`).

Bytes are modelled as `Nat` (all values are < 256 by construction of each
constant), byte strings as `List Nat`, Python strings as `String` / `List Char`.
Python code that can raise is modelled with `Option` (`none` = an exception
escaped).  The optional barcode / qrcode libraries are absent in the modelled
environment (their `import` fails in `escpos.py`), so `BARCODE_AVAILABLE` and
`QRCODE_AVAILABLE` are `False` and the builder takes its literal-fallback
branches; likewise `PIL.Image.open` on a path has no file system to read from,
so `image` raises inside the renderer's `try` and the renderer emits its
bracketed error marker.
-/

/-! ## Character classes (ASCII fragments of Python's str semantics)

Python's `\w`, `\s`, `str.lower`, `str.rstrip` are Unicode-aware; the template
language only exercises their ASCII fragment, which is what is modelled here. -/

def isPyWord (c : Char) : Bool := c.isAlphanum || c = '_'

def pySpace (c : Char) : Bool :=
  c = ' ' || c = '\t' || c = '\n' || c = '\r' || c = '\x0b' || c = '\x0c'

def pyLowerChar (c : Char) : Char := c.toLower

def pyLower (s : String) : String := String.mk (s.data.map pyLowerChar)

/-- Python `str.rstrip()` (drop trailing whitespace). -/
def pyRstrip (s : List Char) : List Char :=
  (List.dropWhile pySpace s.reverse).reverse

/-- Python `s * n` for strings (concatenate `n` copies). -/
def pyStrRepeat (s : String) : Nat → String
  | 0 => ""
  | n + 1 => s ++ pyStrRepeat s n

/-! ## The cp437 character table (`content.encode("cp437")` in `escpos.py`)

Bytes 0–127 coincide with the character's code point; bytes 128–255 are the
IBM PC code-page 437 glyphs listed below. -/

def cp437High : List (Char × Nat) :=
  [('Ç', 0x80), ('ü', 0x81), ('é', 0x82), ('â', 0x83),
   ('ä', 0x84), ('à', 0x85), ('å', 0x86), ('ç', 0x87),
   ('ê', 0x88), ('ë', 0x89), ('è', 0x8A), ('ï', 0x8B),
   ('î', 0x8C), ('ì', 0x8D), ('Ä', 0x8E), ('Å', 0x8F),
   ('É', 0x90), ('æ', 0x91), ('Æ', 0x92), ('ô', 0x93),
   ('ö', 0x94), ('ò', 0x95), ('û', 0x96), ('ù', 0x97),
   ('ÿ', 0x98), ('Ö', 0x99), ('Ü', 0x9A), ('¢', 0x9B),
   ('£', 0x9C), ('¥', 0x9D), ('₧', 0x9E), ('ƒ', 0x9F),
   ('á', 0xA0), ('í', 0xA1), ('ó', 0xA2), ('ú', 0xA3),
   ('ñ', 0xA4), ('Ñ', 0xA5), ('ª', 0xA6), ('º', 0xA7),
   ('¿', 0xA8), ('⌐', 0xA9), ('¬', 0xAA), ('½', 0xAB),
   ('¼', 0xAC), ('¡', 0xAD), ('«', 0xAE), ('»', 0xAF),
   ('░', 0xB0), ('▒', 0xB1), ('▓', 0xB2), ('│', 0xB3),
   ('┤', 0xB4), ('╡', 0xB5), ('╢', 0xB6), ('╖', 0xB7),
   ('╕', 0xB8), ('╣', 0xB9), ('║', 0xBA), ('╗', 0xBB),
   ('╝', 0xBC), ('╜', 0xBD), ('╛', 0xBE), ('┐', 0xBF),
   ('└', 0xC0), ('┴', 0xC1), ('┬', 0xC2), ('├', 0xC3),
   ('─', 0xC4), ('┼', 0xC5), ('╞', 0xC6), ('╟', 0xC7),
   ('╚', 0xC8), ('╔', 0xC9), ('╩', 0xCA), ('╦', 0xCB),
   ('╠', 0xCC), ('═', 0xCD), ('╬', 0xCE), ('╧', 0xCF),
   ('╨', 0xD0), ('╤', 0xD1), ('╥', 0xD2), ('╙', 0xD3),
   ('╘', 0xD4), ('╒', 0xD5), ('╓', 0xD6), ('╫', 0xD7),
   ('╪', 0xD8), ('┘', 0xD9), ('┌', 0xDA), ('█', 0xDB),
   ('▄', 0xDC), ('▌', 0xDD), ('▐', 0xDE), ('▀', 0xDF),
   ('α', 0xE0), ('ß', 0xE1), ('Γ', 0xE2), ('π', 0xE3),
   ('Σ', 0xE4), ('σ', 0xE5), ('µ', 0xE6), ('τ', 0xE7),
   ('Φ', 0xE8), ('Θ', 0xE9), ('Ω', 0xEA), ('δ', 0xEB),
   ('∞', 0xEC), ('φ', 0xED), ('ε', 0xEE), ('∩', 0xEF),
   ('≡', 0xF0), ('±', 0xF1), ('≥', 0xF2), ('≤', 0xF3),
   ('⌠', 0xF4), ('⌡', 0xF5), ('÷', 0xF6), ('≈', 0xF7),
   ('°', 0xF8), ('∙', 0xF9), ('·', 0xFA), ('√', 0xFB),
   ('ⁿ', 0xFC), ('²', 0xFD), ('■', 0xFE), (' ', 0xFF)]

/-- The byte a character encodes to under cp437, if it is encodable. -/
def cp437Byte? (c : Char) : Option Nat :=
  if c.toNat < 128 then some c.toNat else cp437High.lookup c

/-- `encode("cp437")` (strict): `none` models a raised `UnicodeEncodeError`. -/
def encodeCp437Strict : List Char → Option (List Nat)
  | [] => some []
  | c :: cs =>
    match cp437Byte? c, encodeCp437Strict cs with
    | some b, some bs => some (b :: bs)
    | _, _ => none

/-- `encode("cp437", errors="replace")`: an unencodable character becomes the
fallback glyph `?` (byte 0x3F) instead of raising. -/
def encodeCp437Replace : List Char → List Nat
  | [] => []
  | c :: cs =>
    (match cp437Byte? c with
     | some b => b
     | none => 0x3F) :: encodeCp437Replace cs

/-! ## The ESC/POS command builder (`ESCPOSBuilder` in `escpos.py`) -/

structure Builder where
  width : Nat
  buf : List Nat
deriving DecidableEq, Repr

def INIT : List Nat := [0x1b, 0x40]
def BOLD_ON : List Nat := [0x1b, 0x45, 0x01]
def BOLD_OFF : List Nat := [0x1b, 0x45, 0x00]
def UNDERLINE_ON : List Nat := [0x1b, 0x2d, 0x01]
def UNDERLINE_OFF : List Nat := [0x1b, 0x2d, 0x00]
def DOUBLE_HEIGHT_ON : List Nat := [0x1b, 0x21, 0x10]
def DOUBLE_WIDTH_ON : List Nat := [0x1b, 0x21, 0x20]
def DOUBLE_SIZE_ON : List Nat := [0x1b, 0x21, 0x30]
def NORMAL_SIZE : List Nat := [0x1b, 0x21, 0x00]
def ALIGN_LEFT : List Nat := [0x1b, 0x61, 0x00]
def ALIGN_CENTER : List Nat := [0x1b, 0x61, 0x01]
def ALIGN_RIGHT : List Nat := [0x1b, 0x61, 0x02]
def CUT_FULL : List Nat := [0x1d, 0x56, 0x00]
def CUT_PARTIAL_BYTES : List Nat := [0x1d, 0x56, 0x01]
def FEED_LINE : List Nat := [0x0a]

/-- `ESCPOSBuilder(width)`: a fresh buffer starts with the initialize sequence. -/
def initB (width : Nat) : Builder := { width := width, buf := INIT }

/-- `reset()`: clear the buffer and re-emit the initialize sequence. -/
def resetB (b : Builder) : Builder := { b with buf := INIT }

/-- `text(content)`: cp437 with `errors="replace"` — never raises. -/
def textB (s : String) (b : Builder) : Builder :=
  { b with buf := b.buf ++ encodeCp437Replace s.data }

def newlineB (count : Nat) (b : Builder) : Builder :=
  { b with buf := b.buf ++ (List.replicate count FEED_LINE).flatten }

def boldB (flag : Bool) (b : Builder) : Builder :=
  { b with buf := b.buf ++ (if flag then BOLD_ON else BOLD_OFF) }

def underlineB (flag : Bool) (b : Builder) : Builder :=
  { b with buf := b.buf ++ (if flag then UNDERLINE_ON else UNDERLINE_OFF) }

def doubleHeightB (flag : Bool) (b : Builder) : Builder :=
  { b with buf := b.buf ++ (if flag then DOUBLE_HEIGHT_ON else NORMAL_SIZE) }

def doubleWidthB (flag : Bool) (b : Builder) : Builder :=
  { b with buf := b.buf ++ (if flag then DOUBLE_WIDTH_ON else NORMAL_SIZE) }

def doubleSizeB (flag : Bool) (b : Builder) : Builder :=
  { b with buf := b.buf ++ (if flag then DOUBLE_SIZE_ON else NORMAL_SIZE) }

def normalB (b : Builder) : Builder :=
  { b with buf := b.buf ++ NORMAL_SIZE ++ BOLD_OFF ++ UNDERLINE_OFF }

def alignLeftB (b : Builder) : Builder := { b with buf := b.buf ++ ALIGN_LEFT }

def alignCenterB (b : Builder) : Builder := { b with buf := b.buf ++ ALIGN_CENTER }

def alignRightB (b : Builder) : Builder := { b with buf := b.buf ++ ALIGN_RIGHT }

/-- `line(char)`: `(char * width).encode("cp437")` is strict — `none` models the
`UnicodeEncodeError` raised on a character outside the table. -/
def lineB (char : String) (b : Builder) : Option Builder :=
  match encodeCp437Strict (pyStrRepeat char b.width).data with
  | some bs => some { b with buf := b.buf ++ bs ++ FEED_LINE }
  | none => none

/-- `feed(lines)`: `FEED_LINE * lines`; a negative count yields no bytes
(Python `bytes * n` with `n < 0` is empty). -/
def feedB (lines : Int) (b : Builder) : Builder :=
  { b with buf := b.buf ++ (List.replicate lines.toNat FEED_LINE).flatten }

/-- `cut(partial)`: four blank-line feeds, then the (full or partial) cut. -/
def cutB (part : Bool) (b : Builder) : Builder :=
  { b with
    buf := (b.buf ++ (List.replicate 4 FEED_LINE).flatten)
             ++ (if part then CUT_PARTIAL_BYTES else CUT_FULL) }

/-- One packed row of the raster image: byte `j` collects pixels `8j .. 8j+7`,
most-significant bit first, bit set when the pixel is black. -/
def rasterRow (w : Nat) (pix : Nat → Nat → Bool) (y : Nat) : List Nat :=
  (List.range ((w + 7) / 8)).map (fun j =>
    (List.range 8).foldl (fun acc k =>
      if 8 * j + k < w && pix (8 * j + k) y then acc ||| (0x80 >>> k) else acc) 0)

/-- `image(...)` after decoding: the GS v 0 raster header (width in bytes and
height, little-endian) followed by the packed rows.  `pix x y = true` means the
1-bit pixel at `(x, y)` is black. -/
def imageB (w h : Nat) (pix : Nat → Nat → Bool) (b : Builder) : Builder :=
  { b with
    buf := b.buf ++ [0x1d, 0x76, 0x30, 0x00,
                     ((w + 7) / 8) &&& 0xff, (((w + 7) / 8) >>> 8) &&& 0xff,
                     h &&& 0xff, (h >>> 8) &&& 0xff]
             ++ ((List.range h).map (rasterRow w pix)).flatten }

/-- `barcode(data, barcode_type, ...)` with the barcode library absent
(`BARCODE_AVAILABLE = False`): the literal-fallback branch. -/
def barcodeB (data btype : String) (b : Builder) : Builder :=
  newlineB 1 (textB ("[" ++ btype ++ ": " ++ data ++ "]") b)

/-- `qr(data, size, ...)` with the qrcode library absent
(`QRCODE_AVAILABLE = False`): the literal-fallback branch. -/
def qrB (data : String) (size : Int) (b : Builder) : Builder :=
  newlineB 1 (textB ("[QR: " ++ data ++ "]") b)

/-- `build()`: snapshot of the buffer. -/
def buildB (b : Builder) : List Nat := b.buf

/-! ## Builder operations as data (for buffer invariants over arbitrary call
sequences) -/

inductive BOp where
  | text (s : String)
  | newline (n : Nat)
  | bold (flag : Bool)
  | underline (flag : Bool)
  | doubleHeight (flag : Bool)
  | doubleWidth (flag : Bool)
  | doubleSize (flag : Bool)
  | normal
  | alignLeft
  | alignCenter
  | alignRight
  | line (char : String)
  | feed (n : Int)
  | cut (part : Bool)
  | image (w h : Nat) (pix : Nat → Nat → Bool)
  | barcode (data btype : String)
  | qr (data : String) (size : Int)
  | reset

def applyOp (b : Builder) : BOp → Option Builder
  | .text s => some (textB s b)
  | .newline n => some (newlineB n b)
  | .bold f => some (boldB f b)
  | .underline f => some (underlineB f b)
  | .doubleHeight f => some (doubleHeightB f b)
  | .doubleWidth f => some (doubleWidthB f b)
  | .doubleSize f => some (doubleSizeB f b)
  | .normal => some (normalB b)
  | .alignLeft => some (alignLeftB b)
  | .alignCenter => some (alignCenterB b)
  | .alignRight => some (alignRightB b)
  | .line c => lineB c b
  | .feed n => some (feedB n b)
  | .cut p => some (cutB p b)
  | .image w h pix => some (imageB w h pix b)
  | .barcode d t => some (barcodeB d t b)
  | .qr d s => some (qrB d s b)
  | .reset => some (resetB b)

def applyOps (b : Builder) : List BOp → Option Builder
  | [] => some b
  | op :: ops =>
    match applyOp b op with
    | some b2 => applyOps b2 ops
    | none => none

/-! ## The transport contract (`PrinterConnection.print_data` in
`connection.py`)

`print_data` is pure control flow over the abstract `connect` / `write` /
`disconnect` operations, so it is modelled against an arbitrary behaviour of
those operations: `connect()` may succeed, return a falsy value, or raise;
`write(data)` may return a boolean or raise.  The trace records the calls the
transport receives, in order. -/

inductive TEvent where
  | connectEv
  | writeEv (data : List Nat)
  | disconnectEv
deriving DecidableEq, Repr

inductive ConnectBehavior where
  | ok
  | retFalse
  | raises
deriving DecidableEq, Repr

inductive WriteBehavior where
  | ok (ret : Bool)
  | raises
deriving DecidableEq, Repr

/-- `print_data(data)`:
```
if not self.connect(): return False
try:     return self.write(data)
finally: self.disconnect()
```
Result `Except.error ()` models an exception escaping to the caller. -/
def printData (cb : ConnectBehavior) (wb : WriteBehavior) (data : List Nat) :
    List TEvent × Except Unit Bool :=
  match cb with
  | .raises => ([.connectEv], .error ())
  | .retFalse => ([.connectEv], .ok false)
  | .ok =>
    match wb with
    | .ok r => ([.connectEv, .writeEv data, .disconnectEv], .ok r)
    | .raises => ([.connectEv, .writeEv data, .disconnectEv], .error ())

/-! ## Python value model (`variables` dictionaries in `renderer.py`)

Binding values are scalars (strings or ints — `str()` of anything else is not
exercised by the template language) or one-level lists of scalars / flat
string-keyed dicts, exactly the shape `_process_loops` consumes.  `pyStr`
mirrors Python `str()` on these values (`str` on a list/dict uses `repr` of the
elements; `repr` of the strings used here is plain single-quoting). -/

inductive PyScalar where
  | s (v : String)
  | i (v : Int)
deriving DecidableEq, Repr

inductive PyItem where
  | scalar (v : PyScalar)
  | map (kvs : List (String × PyScalar))
deriving DecidableEq, Repr

inductive PyVal where
  | scalar (v : PyScalar)
  | list (items : List PyItem)
deriving DecidableEq, Repr

def pyStrScalar : PyScalar → String
  | .s v => v
  | .i v => toString v

def pyReprScalar : PyScalar → String
  | .s v => "\x27" ++ v ++ "\x27"
  | .i v => toString v

def pyReprItem : PyItem → String
  | .scalar v => pyReprScalar v
  | .map kvs =>
    "\x7b" ++
      String.intercalate ", "
        (kvs.map (fun kv => "\x27" ++ kv.1 ++ "\x27: " ++ pyReprScalar kv.2)) ++
      "\x7d"

def pyStr : PyVal → String
  | .scalar v => pyStrScalar v
  | .list items => "[" ++ String.intercalate ", " (items.map pyReprItem) ++ "]"

abbrev Bindings := List (String × PyVal)

/-! ## Python `int(str)` (`int(n)` on tag attributes can raise `ValueError`)

Whitespace is stripped, an optional sign allowed, then decimal digits with
single underscores permitted between digits.  `none` models the raise. -/

def pyDigitsVal (acc : Nat) : List Char → Option Nat
  | [] => some acc
  | c :: cs =>
    if c.isDigit then pyDigitsVal (acc * 10 + (c.toNat - 48)) cs
    else if c = '_' then
      match cs with
      | d :: cs2 =>
        if d.isDigit then pyDigitsVal (acc * 10 + (d.toNat - 48)) cs2 else none
      | [] => none
    else none

def pyInt? (s : String) : Option Int :=
  let t := ((s.data.dropWhile pySpace).reverse.dropWhile pySpace).reverse
  match t with
  | '-' :: d :: cs =>
    if d.isDigit then (pyDigitsVal (d.toNat - 48) cs).map (fun n => -(n : Int))
    else none
  | '+' :: d :: cs =>
    if d.isDigit then (pyDigitsVal (d.toNat - 48) cs).map (fun n => (n : Int))
    else none
  | d :: cs =>
    if d.isDigit then (pyDigitsVal (d.toNat - 48) cs).map (fun n => (n : Int))
    else none
  | [] => none

/-! ## Elementary scanners

The renderer's three regexes are deterministic on their inputs (each greedy
sub-pattern is followed by a character it cannot match, so no backtracking
changes the result); they are embedded as explicit scanners. -/

/-- Match a literal prefix, returning what follows it. -/
def stripLit : List Char → List Char → Option (List Char)
  | [], s => some s
  | _ :: _, [] => none
  | p :: ps, c :: cs => if c = p then stripLit ps cs else none

/-- Maximal run of characters satisfying `p` (a greedy `X*`), and the rest. -/
def takeRun (p : Char → Bool) : List Char → List Char × List Char
  | [] => ([], [])
  | c :: cs =>
    if p c then
      let r := takeRun p cs
      (c :: r.1, r.2)
    else ([], c :: cs)

/-- First occurrence of a literal substring: `some (before, after)` splits
around it (Python `str.find` + slicing). -/
def splitSub (pat : List Char) : List Char → Option (List Char × List Char)
  | [] =>
    (match stripLit pat [] with
     | some r => some (([] : List Char), r)
     | none => none)
  | c :: cs =>
    match stripLit pat (c :: cs) with
    | some rest => some ([], rest)
    | none =>
      match splitSub pat cs with
      | some (pre, post) => some (c :: pre, post)
      | none => none

def containsSub (s pat : List Char) : Bool := (splitSub pat s).isSome

/-- Python `str.replace(old, new)` for a nonempty `old`: left-to-right,
non-overlapping.  (Every pattern passed by the renderer is `{{…}}`, so the
empty-pattern case of Python `replace` is never exercised.) -/
def replaceSubAux (pat repl : List Char) : Nat → List Char → List Char
  | 0, s => s
  | _ + 1, [] => []
  | f + 1, c :: cs =>
    match stripLit pat (c :: cs) with
    | some rest => repl ++ replaceSubAux pat repl f rest
    | none => c :: replaceSubAux pat repl f cs

def replaceSub (s pat repl : List Char) : List Char :=
  replaceSubAux pat repl (s.length + 1) s

/-! ## The three regexes of `TemplateRenderer` -/

def braceOpenLit : List Char := ['\x7b', '\x7b']
def braceCloseLit : List Char := ['\x7d', '\x7d']
def eachOpenLit : List Char := ['\x7b', '\x7b', '#', 'e', 'a', 'c', 'h']
def eachCloseLit : List Char :=
  ['\x7b', '\x7b', '/', 'e', 'a', 'c', 'h', '\x7d', '\x7d']

/-- `VAR_PATTERN = r'\{\{(\w+)\}\}'` anchored at the head of `s`:
the variable name and what follows the match. -/
def varMatchAt (s : List Char) : Option (String × List Char) :=
  match stripLit braceOpenLit s with
  | none => none
  | some r1 =>
    let w := takeRun isPyWord r1
    if w.1.isEmpty then none
    else
      match stripLit braceCloseLit w.2 with
      | none => none
      | some r3 => some (String.mk w.1, r3)

/-- `EACH_PATTERN = r'\{\{#each\s+(\w+)\}\}(.*?)\{\{/each\}\}'` (DOTALL)
anchored at the head of `s`: list name, lazy body (up to the first close tag),
and what follows the whole match. -/
def eachMatchAt (s : List Char) : Option (String × List Char × List Char) :=
  match stripLit eachOpenLit s with
  | none => none
  | some r1 =>
    let sp := takeRun pySpace r1
    if sp.1.isEmpty then none
    else
      let w := takeRun isPyWord sp.2
      if w.1.isEmpty then none
      else
        match stripLit braceCloseLit w.2 with
        | none => none
        | some r3 =>
          match splitSub eachCloseLit r3 with
          | some (body, rest) => some (String.mk w.1, body, rest)
          | none => none

/-- `TAG_PATTERN = r'\[(/?)(\w+)(?:\s+([^\]]*))?\]'` anchored at the head of
`s`: `(closing, name, attribute text, rest)`. -/
def tagMatchAt (s : List Char) : Option (Bool × String × String × List Char) :=
  match stripLit ['['] s with
  | none => none
  | some r0 =>
    let cl : Bool × List Char :=
      match stripLit ['/'] r0 with
      | some r => (true, r)
      | none => (false, r0)
    let w := takeRun isPyWord cl.2
    if w.1.isEmpty then none
    else
      match stripLit [']'] w.2 with
      | some r3 => some (cl.1, String.mk w.1, "", r3)
      | none =>
        let sp := takeRun pySpace w.2
        if sp.1.isEmpty then none
        else
          let av := takeRun (fun c => !(c = ']')) sp.2
          match stripLit [']'] av.2 with
          | some r5 => some (cl.1, String.mk w.1, String.mk av.1, r5)
          | none => none

/-! ## `_parse_attr` (`rf'{name}=["\']?([^"\'\s\]]+)["\']?'` searched in the
attribute text) -/

def isAttrValChar (c : Char) : Bool :=
  !(c = '"' || c = '\x27' || pySpace c || c = ']')

def attrMatchAt (nameq : List Char) (s : List Char) : Option String :=
  match stripLit nameq s with
  | none => none
  | some rest =>
    let rest1 :=
      match rest with
      | c :: r => if c = '"' || c = '\x27' then r else c :: r
      | [] => []
    let run := takeRun isAttrValChar rest1
    if run.1.isEmpty then none else some (String.mk run.1)

def attrSearch (nameq : List Char) : List Char → Option String
  | [] => none
  | c :: cs =>
    match attrMatchAt nameq (c :: cs) with
    | some v => some v
    | none => attrSearch nameq cs

def parseAttr (attrs name default : String) : String :=
  (attrSearch (name.data ++ ['=']) attrs.data).getD default

/-! ## Loop expansion and variable substitution (`_process_loops`,
`_substitute_variables`)

The scanning loops are written with explicit fuel (`length + 1` always
suffices since every step consumes at least one character); fuel `0` returns
the input unchanged and is unreachable from the wrappers. -/

def expandItem (body : List Char) : PyItem → List Char
  | .map kvs =>
    kvs.foldl
      (fun acc kv =>
        replaceSub acc (braceOpenLit ++ kv.1.data ++ braceCloseLit)
          (pyStrScalar kv.2).data)
      body
  | .scalar v =>
    replaceSub body (braceOpenLit ++ ['.'] ++ braceCloseLit) (pyStrScalar v).data

/-- One `{{#each name}}body{{/each}}` replacement: a non-list (or absent,
defaulting to `[]`) binding contributes empty output; a list repeats the body
once per item with the item's fields / scalar substituted. -/
def expandLoop (name : String) (body : List Char) (vars : Bindings) : List Char :=
  match (vars.lookup name).getD (PyVal.list []) with
  | .list items => (items.map (expandItem body)).flatten
  | .scalar _ => []

def processLoopsAux (vars : Bindings) : Nat → List Char → List Char
  | 0, s => s
  | _ + 1, [] => []
  | f + 1, c :: cs =>
    match eachMatchAt (c :: cs) with
    | some (name, body, rest) =>
      expandLoop name body vars ++ processLoopsAux vars f rest
    | none => c :: processLoopsAux vars f cs

def processLoops (s : List Char) (vars : Bindings) : List Char :=
  processLoopsAux vars (s.length + 1) s

def substituteVarsAux (vars : Bindings) : Nat → List Char → List Char
  | 0, s => s
  | _ + 1, [] => []
  | f + 1, c :: cs =>
    match varMatchAt (c :: cs) with
    | some (name, rest) =>
      (match vars.lookup name with
       | some v => (pyStr v).data
       | none => braceOpenLit ++ name.data ++ braceCloseLit)
        ++ substituteVarsAux vars f rest
    | none => c :: substituteVarsAux vars f cs

/-- `_substitute_variables`: a bound variable becomes `str(value)`, a missing
one is left as the literal `{{name}}` text. -/
def substituteVariables (s : List Char) (vars : Bindings) : List Char :=
  substituteVarsAux vars (s.length + 1) s

/-! ## `extract_variables` -/

def varOccsAux : Nat → List Char → List String
  | 0, _ => []
  | _ + 1, [] => []
  | f + 1, c :: cs =>
    match varMatchAt (c :: cs) with
    | some (name, rest) => name :: varOccsAux f rest
    | none => varOccsAux f cs

/-- The names yielded by `VAR_PATTERN.finditer` (left-to-right,
non-overlapping), in order. -/
def varOccs (s : List Char) : List String := varOccsAux (s.length + 1) s

def eachOccsAux : Nat → List Char → List String
  | 0, _ => []
  | _ + 1, [] => []
  | f + 1, c :: cs =>
    match eachMatchAt (c :: cs) with
    | some (name, _, rest) => name :: eachOccsAux f rest
    | none => eachOccsAux f cs

/-- The list names yielded by `EACH_PATTERN.finditer`, in order. -/
def eachOccs (s : List Char) : List String := eachOccsAux (s.length + 1) s

/-- Code-point lexicographic `<=` on strings — the order Python compares
strings by (and hence the order `sorted()` produces). -/
def lexLe : List Char → List Char → Bool
  | [], _ => true
  | _ :: _, [] => false
  | a :: as, b :: bs => if a = b then lexLe as bs else decide (a.toNat < b.toNat)

def lexLt : List Char → List Char → Bool
  | [], [] => false
  | [], _ :: _ => true
  | _ :: _, [] => false
  | a :: as, b :: bs => if a = b then lexLt as bs else decide (a.toNat < b.toNat)

def strLe (a b : String) : Bool := lexLe a.data b.data

def strLt (a b : String) : Bool := lexLt a.data b.data

def insertSorted (x : String) : List String → List String
  | [] => [x]
  | y :: ys => if strLe x y then x :: y :: ys else y :: insertSorted x ys

/-- Ascending (lexicographic) sort — the order `sorted()` produces. -/
def sortStrings (l : List String) : List String := l.foldr insertSorted []

/-- `extract_variables(template)`: `sorted(set(vars ∪ each-names))` — a set
has each name once, and `sorted` lists the members in ascending order. -/
def extractVariables (t : String) : List String :=
  sortStrings ((varOccs t.data ++ eachOccs t.data).dedup)

/-! ## Binary rendering (`render` / `_render_content` / `_handle_tag`)

`none` models an exception escaping the render: `int()` on a malformed
`feed n=…` / `qr size=…` attribute, or the strict cp437 encode inside
`line(char)`.  Everything else — unknown tags, missing bindings, unavailable
images and symbol generators — degrades without raising. -/

def flushText (b : Builder) (tb : List Char) : Builder :=
  if tb.isEmpty then b else textB (String.mk tb) b

/-- `_handle_tag` (barcode/qr are dispatched by the scanning loop instead).
In the modelled environment `builder.image(src)` raises inside the renderer's
`try`, so a nonempty `src` yields the bracketed error marker. -/
def handleTag (b : Builder) (nm : String) (attrs : String) (closing : Bool) :
    Option Builder :=
  if nm = "center" then some (if closing then alignLeftB b else alignCenterB b)
  else if nm = "right" then some (if closing then alignLeftB b else alignRightB b)
  else if nm = "left" then some (alignLeftB b)
  else if nm = "bold" then some (boldB (!closing) b)
  else if nm = "underline" then some (underlineB (!closing) b)
  else if nm = "double-height" then some (doubleHeightB (!closing) b)
  else if nm = "double-width" then some (doubleWidthB (!closing) b)
  else if nm = "double-size" then some (doubleSizeB (!closing) b)
  else if nm = "normal" then some (normalB b)
  else if nm = "line" then lineB (parseAttr attrs "char" "-") b
  else if nm = "feed" then
    match pyInt? (parseAttr attrs "n" "1") with
    | some n => some (feedB n b)
    | none => none
  else if nm = "cut" then
    some (cutB (pyLower (parseAttr attrs "partial" "false") = "true") b)
  else if nm = "image" then
    let src := parseAttr attrs "src" ""
    if src = "" then some b
    else some (newlineB 1 (textB ("[IMAGE ERROR: " ++ src ++ "]") b))
  else some b

def closeTagLit (nm : String) : List Char := '[' :: '/' :: (nm.data ++ [']'])

/-- The barcode / qr emission once the payload is cut out of the content
(the tail of `_render_content`). -/
def emitSymbol (b : Builder) (nm attrs : String) (payload : List Char) :
    Option Builder :=
  if nm = "barcode" then
    some (barcodeB (String.mk payload) (parseAttr attrs "type" "code128") b)
  else
    match pyInt? (parseAttr attrs "size" "4") with
    | some sz => some (qrB (String.mk payload) sz b)
    | none => none

/-- One iteration of the `_render_content` scanning loop at `c :: cs`: on a
tag match, flush the text buffer, dispatch the tag, and for a non-closing
barcode/qr cut the payload at the first matching close tag — when there is
none (or it is empty), only the opening tag is consumed.  Returns the next
suffix, builder, and text buffer, or `none` when the dispatch raised. -/
def renderStep (c : Char) (cs : List Char) (b : Builder) (tb : List Char) :
    Option (List Char × Builder × List Char) :=
  match tagMatchAt (c :: cs) with
  | some (closing, nm0, attrs, rest) =>
    let nm := pyLower nm0
    match handleTag (flushText b tb) nm attrs closing with
    | none => none
    | some b2 =>
      if (nm = "barcode" || nm = "qr") && !closing then
        match splitSub (closeTagLit nm) rest with
        | some (payload, rest2) =>
          if payload.isEmpty then some (rest, b2, [])
          else
            match emitSymbol b2 nm attrs payload with
            | none => none
            | some b3 => some (rest2, b3, [])
        | none => some (rest, b2, [])
      else some (rest, b2, [])
  | none =>
    if c = '\n' then some (cs, newlineB 1 (flushText b tb), [])
    else some (cs, b, tb ++ [c])

/-- The `_render_content` scanning loop: iterate `renderStep`, flushing the
leftover text buffer at the end of the content. -/
def renderLoopB : Nat → List Char → Builder → List Char → Option Builder
  | 0, _, b, _ => some b
  | _ + 1, [], b, tb => some (flushText b tb)
  | f + 1, c :: cs, b, tb =>
    match renderStep c cs b tb with
    | none => none
    | some (s2, b2, tb2) => renderLoopB f s2 b2 tb2

def renderContentAux (s : List Char) (b : Builder) (tb : List Char) :
    Option Builder :=
  renderLoopB (s.length + 1) s b tb

/-- The fully expanded content both render paths scan: loop expansion first,
then variable substitution. -/
def expandedContent (t : String) (vars : Bindings) : List Char :=
  substituteVariables (processLoops t.data vars) vars

/-- `render(template, variables)`: loops first, then variable substitution,
then the tag scan into a fresh builder; `build()` snapshots the bytes. -/
def renderBytes (w : Nat) (template : String) (vars : Bindings) :
    Option (List Nat) :=
  (renderContentAux (expandedContent template vars) (initB w) []).map buildB

/-! ## Preview rendering (`render_preview`) -/

inductive PAlign where
  | left
  | center
  | right
deriving DecidableEq, Repr

structure PState where
  lines : List String
  cur : List Char
  align : PAlign
deriving DecidableEq, Repr

/-- CPython `str.center(width)` (left margin gets
`marg // 2 + (marg & width & 1)` fill characters). -/
def pyCenter (s : List Char) (w : Nat) : List Char :=
  if w ≤ s.length then s
  else
    let marg := w - s.length
    let lft := marg / 2 + (marg &&& w &&& 1)
    List.replicate lft ' ' ++ s ++ List.replicate (marg - lft) ' '

def pyRjust (s : List Char) (w : Nat) : List Char :=
  if w ≤ s.length then s else List.replicate (w - s.length) ' ' ++ s

/-- `_align_text`: trailing whitespace trimmed; empty lines stay empty;
otherwise centred / right-justified / unpadded by the active alignment. -/
def alignText (w : Nat) (s : List Char) (a : PAlign) : String :=
  let t := pyRstrip s
  if t.isEmpty then ""
  else
    match a with
    | .center => String.mk (pyCenter t w)
    | .right => String.mk (pyRjust t w)
    | .left => String.mk t

/-- `if current_line: lines.append(_align_text(...)); current_line = ""`. -/
def flushCur (w : Nat) (st : PState) : PState :=
  if st.cur.isEmpty then st
  else { st with lines := st.lines ++ [alignText w st.cur st.align], cur := [] }

/-- One iteration of the `render_preview` scanning loop at `c :: cs`.
Mirrors the if/elif chain of `renderer.py` lines 75–162; note the `barcode` /
`qr` branches there do not test `is_closing`.  `int(n)` on a `feed` tag is
the only raise site (modelled by `none`); its flush-then-raise order is
immaterial to the result. -/
def previewStep (w : Nat) (c : Char) (cs : List Char) (st : PState) :
    Option (List Char × PState) :=
  match tagMatchAt (c :: cs) with
    | some (closing, nm0, attrs, rest) =>
      let nm := pyLower nm0
      if nm = "center" && !closing then
        some (rest, { flushCur w st with align := .center })
      else if nm = "center" && closing then
        some (rest, { flushCur w st with align := .left })
      else if nm = "right" && !closing then
        some (rest, { flushCur w st with align := .right })
      else if nm = "right" && closing then
        some (rest, { flushCur w st with align := .left })
      else if nm = "left" then
        some (rest, { flushCur w st with align := .left })
      else if nm = "line" then
        let st2 := flushCur w st
        some (rest,
          { st2 with lines := st2.lines ++ [String.mk (List.replicate w '-')] })
      else if nm = "cut" then
        let st2 := flushCur w st
        some (rest, { st2 with lines := st2.lines ++ ["", "--- CUT ---"] })
      else if nm = "feed" then
        match pyInt? (parseAttr attrs "n" "1") with
        | none => none
        | some n =>
          let st2 := flushCur w st
          some (rest, { st2 with lines := st2.lines ++ List.replicate n.toNat "" })
      else if nm = "barcode" then
        let st2 := flushCur w st
        match splitSub (closeTagLit "barcode") rest with
        | some (payload, rest2) =>
          if payload.isEmpty then some (rest, st2)
          else
            some (rest2,
              { st2 with
                lines := st2.lines ++
                  ["[BARCODE:" ++ parseAttr attrs "type" "code128" ++ ":" ++
                    String.mk payload ++ "]"] })
        | none => some (rest, st2)
      else if nm = "qr" then
        let st2 := flushCur w st
        match splitSub (closeTagLit "qr") rest with
        | some (payload, rest2) =>
          if payload.isEmpty then some (rest, st2)
          else
            some (rest2,
              { st2 with
                lines := st2.lines ++ ["[QR:" ++ String.mk payload ++ "]"] })
        | none => some (rest, st2)
      else if nm = "image" then
        let st2 := flushCur w st
        some (rest,
          { st2 with
            lines := st2.lines ++ ["[IMAGE:" ++ parseAttr attrs "src" "" ++ "]"] })
      else some (rest, st)
    | none =>
      if c = '\n' then
        some (cs,
          { st with lines := st.lines ++ [alignText w st.cur st.align], cur := [] })
      else some (cs, { st with cur := st.cur ++ [c] })

/-- The `render_preview` scanning loop: iterate `previewStep`. -/
def previewLoop (w : Nat) : Nat → List Char → PState → Option PState
  | 0, _, st => some st
  | _ + 1, [], st => some st
  | f + 1, c :: cs, st =>
    match previewStep w c cs st with
    | none => none
    | some (s2, st2) => previewLoop w f s2 st2

def previewAux (w : Nat) (s : List Char) (st : PState) : Option PState :=
  previewLoop w (s.length + 1) s st

/-- The attribute conditions under which the binary tag dispatch at the head
of `s` cannot raise: a `feed` tag needs an integer `n` attribute, a `line`
tag a cp437-encodable `char` attribute, and an opening `qr` tag an integer
`size` attribute. -/
def tagSafeBin (s : List Char) : Bool :=
  match tagMatchAt s with
  | some (closing, nm0, attrs, _) =>
    (!(pyLower nm0 == "feed") || (pyInt? (parseAttr attrs "n" "1")).isSome) &&
    (!(pyLower nm0 == "line") ||
      (encodeCp437Strict (parseAttr attrs "char" "-").data).isSome) &&
    (!(pyLower nm0 == "qr" && !closing) ||
      (pyInt? (parseAttr attrs "size" "4")).isSome)
  | none => true

/-- The preview dispatch can only raise on a `feed` tag with a non-integer
`n` attribute. -/
def tagSafePrev (s : List Char) : Bool :=
  match tagMatchAt s with
  | some (_, nm0, attrs, _) =>
    !(pyLower nm0 == "feed") || (pyInt? (parseAttr attrs "n" "1")).isSome
  | none => true

/-- `render_preview(template, variables)`: loops, substitution, then the
preview scan; a leftover current line is flushed and the lines joined. -/
def renderPreviewFn (w : Nat) (template : String) (vars : Bindings) :
    Option String :=
  match previewAux w (expandedContent template vars) ⟨[], [], .left⟩ with
  | none => none
  | some st =>
    let lines :=
      if st.cur.isEmpty then st.lines
      else st.lines ++ [alignText w st.cur st.align]
    some (String.intercalate "\n" lines)

/-! # Supporting lemmas -/

lemma take_two_append {l m : List Nat} (h : l.take 2 = INIT) :
    (l ++ m).take 2 = INIT := by
  have hlen : 2 ≤ l.length := by
    have := congrArg List.length h
    simp [List.length_take, INIT] at this
    omega
  rw [List.take_append_eq_append_take, h]
  have : 2 - l.length = 0 := by omega
  simp [this]

lemma applyOp_take_init {op : BOp} {b b2 : Builder}
    (h : b.buf.take 2 = INIT) (h2 : applyOp b op = some b2) :
    b2.buf.take 2 = INIT := by
  cases op with
  | line c =>
    simp only [applyOp, lineB] at h2
    cases henc : encodeCp437Strict (pyStrRepeat c b.width).data with
    | none => rw [henc] at h2; simp at h2
    | some bs =>
      rw [henc] at h2
      simp at h2
      subst h2
      simp only [List.append_assoc]
      exact take_two_append h
  | reset =>
    simp [applyOp, resetB] at h2
    subst h2
    simp [INIT]
  | _ =>
    simp only [applyOp, Option.some.injEq] at h2
    subst h2
    simp only [textB, newlineB, boldB, underlineB, doubleHeightB, doubleWidthB,
      doubleSizeB, normalB, alignLeftB, alignCenterB, alignRightB, feedB, cutB,
      imageB, barcodeB, qrB, List.append_assoc]
    exact take_two_append h

lemma applyOps_take_init :
    ∀ (ops : List BOp) (b0 b : Builder), b0.buf.take 2 = INIT →
      applyOps b0 ops = some b → b.buf.take 2 = INIT := by
  intro ops
  induction ops with
  | nil => intro b0 b h h2; simp [applyOps] at h2; subst h2; exact h
  | cons op rest ih =>
    intro b0 b h h2
    simp only [applyOps] at h2
    cases hop : applyOp b0 op with
    | none => rw [hop] at h2; simp at h2
    | some b1 =>
      rw [hop] at h2
      exact ih b1 b (applyOp_take_init h hop) h2

/-- C4: every command buffer begins with the printer-initialize sequence
ESC @ (0x1B 0x40): it holds for a freshly constructed builder, is restored by
`reset`, and is preserved by every builder operation, so `build()` of any
successful operation sequence starts with those two bytes. -/
theorem buffer_starts_with_init (ops : List BOp) (w : Nat) (b : Builder)
    (h : applyOps (initB w) ops = some b) :
    (buildB (initB w)).take 2 = [0x1b, 0x40] ∧
    (buildB b).take 2 = [0x1b, 0x40] := by
  have h0 : (initB w).buf.take 2 = INIT := by simp [initB]; rfl
  have h1 := applyOps_take_init ops (initB w) b h0 h
  exact ⟨by simpa [buildB, INIT] using h0, by simpa [buildB, INIT] using h1⟩

theorem buffer_starts_with_init_witness :
    (buildB { width := 48,
              buf := [0x1b, 0x40, 0x68, 0x69, 0x0a, 0x0a, 0x0a, 0x0a,
                      0x1d, 0x56, 0x00] }).take 2 = [0x1b, 0x40] :=
  (buffer_starts_with_init [BOp.text "hi", BOp.cut false] 48 _ (by decide)).2

/-- C3: the builder's `cut` appends four blank-line feed bytes immediately
followed by the (full or partial) cut opcode, so the padding feeds directly
precede every cut opcode in the output, independent of `partial`. -/
theorem cut_padding_before_opcode (part : Bool) (b : Builder) :
    (cutB part b).buf =
      b.buf ++ (List.replicate 4 0x0a ++
        (if part then CUT_PARTIAL_BYTES else CUT_FULL)) ∧
    (List.replicate 4 0x0a ++ (if part then CUT_PARTIAL_BYTES else CUT_FULL))
      <:+ (cutB part b).buf := by
  have hfl : (List.replicate 4 FEED_LINE).flatten = List.replicate 4 0x0a := by
    decide
  have h1 : (cutB part b).buf =
      b.buf ++ (List.replicate 4 0x0a ++
        (if part then CUT_PARTIAL_BYTES else CUT_FULL)) := by
    simp only [cutB, List.append_assoc, hfl]
  exact ⟨h1, b.buf, h1.symm⟩

/-- C7: after a successful connect, `print_data(data)` performs exactly one
write of `data` and then a disconnect — on every exit path — and its result is
the write's: the boolean on success, the re-raised failure otherwise (the
disconnect having already happened, being the event before the return). -/
theorem print_data_scoped_acquisition (cb : ConnectBehavior)
    (wb : WriteBehavior) (data : List Nat) (h : cb = ConnectBehavior.ok) :
    (printData cb wb data).1 =
      [TEvent.connectEv, TEvent.writeEv data, TEvent.disconnectEv] ∧
    (printData cb wb data).2 =
      (match wb with
       | .ok r => Except.ok r
       | .raises => Except.error ()) := by
  subst h
  cases wb <;> simp [printData]

theorem print_data_scoped_acquisition_witness :
    (printData ConnectBehavior.ok WriteBehavior.raises [1, 2]).1 =
      [TEvent.connectEv, TEvent.writeEv [1, 2], TEvent.disconnectEv] ∧
    (printData ConnectBehavior.ok WriteBehavior.raises [1, 2]).2 =
      Except.error () := by
  have h := print_data_scoped_acquisition ConnectBehavior.ok
    WriteBehavior.raises [1, 2] rfl
  exact ⟨h.1, h.2⟩

lemma encodeCp437Replace_map (cs : List Char) :
    encodeCp437Replace cs = cs.map (fun c => (cp437Byte? c).getD 0x3F) := by
  induction cs with
  | nil => rfl
  | cons c cs ih =>
    simp only [encodeCp437Replace, List.map_cons, ih]
    cases cp437Byte? c <;> simp [Option.getD]

lemma encodeCp437Strict_replace {cs : List Char} {bs : List Nat}
    (h : encodeCp437Strict cs = some bs) : encodeCp437Replace cs = bs := by
  induction cs generalizing bs with
  | nil => simp [encodeCp437Strict] at h; simp [encodeCp437Replace, h]
  | cons c cs ih =>
    simp only [encodeCp437Strict] at h
    cases hc : cp437Byte? c with
    | none => rw [hc] at h; simp at h
    | some b =>
      rw [hc] at h
      cases hrest : encodeCp437Strict cs with
      | none => rw [hrest] at h; simp at h
      | some bs2 =>
        rw [hrest] at h
        simp at h
        subst h
        simp [encodeCp437Replace, hc, ih hrest]

/-- C8: `text(content)` never fails: it appends one byte per character of the
content, encoded through the cp437 table where the table applies (agreeing
with the strict encoding whenever that one succeeds), and the fallback glyph
`?` (0x3F) replaces every character outside the table instead of an error. -/
theorem text_encode_never_fails :
    (∀ (s : String) (b : Builder),
        textB s b = { b with buf := b.buf ++ encodeCp437Replace s.data } ∧
        encodeCp437Replace s.data =
          s.data.map (fun c => (cp437Byte? c).getD 0x3F) ∧
        (encodeCp437Replace s.data).length = s.data.length) ∧
    (∀ (cs : List Char) (bs : List Nat),
        encodeCp437Strict cs = some bs → encodeCp437Replace cs = bs) ∧
    (∀ c : Char, cp437Byte? c = none → encodeCp437Replace [c] = [0x3F]) := by
  refine ⟨fun s b => ⟨rfl, encodeCp437Replace_map s.data, ?_⟩,
    fun cs bs h => encodeCp437Strict_replace h,
    fun c h => by simp [encodeCp437Replace, h]⟩
  simp [encodeCp437Replace_map]

theorem text_encode_never_fails_witness :
    encodeCp437Replace ['a'] = [97] ∧ encodeCp437Replace ['€'] = [0x3F] :=
  ⟨text_encode_never_fails.2.1 ['a'] [97] (by decide),
   text_encode_never_fails.2.2 '€' (by decide)⟩

lemma encodeCp437Strict_repeat_one {c : Char} {byte : Nat}
    (h : cp437Byte? c = some byte) (w : Nat) :
    encodeCp437Strict (pyStrRepeat (String.mk [c]) w).data =
      some (List.replicate w byte) := by
  induction w with
  | zero => rfl
  | succ n ih =>
    show encodeCp437Strict (String.mk [c] ++ pyStrRepeat (String.mk [c]) n).data
      = _
    rw [String.data_append]
    show encodeCp437Strict (c :: (pyStrRepeat (String.mk [c]) n).data) = _
    simp only [encodeCp437Strict, h, ih, List.replicate_succ]

/-- C10: `line(char)` encodes the repeated rule character strictly: a
character inside the cp437 table yields exactly `width` copies of its byte
followed by one line feed, but a character outside the table (here `€`) makes
the operation raise rather than substitute a fallback glyph, unlike `text`. -/
theorem line_strict_encoding :
    (∀ (c : Char) (byte : Nat) (b : Builder), cp437Byte? c = some byte →
        lineB (String.mk [c]) b =
          some { b with
                 buf := b.buf ++ List.replicate b.width byte ++ [0x0a] }) ∧
    cp437Byte? '€' = none ∧
    lineB (String.mk ['€']) (initB 48) = none := by
  refine ⟨fun c byte b h => ?_, by decide, by decide⟩
  simp [lineB, encodeCp437Strict_repeat_one h, FEED_LINE, List.append_assoc]

theorem line_strict_encoding_witness :
    lineB (String.mk ['-']) (initB 4) =
      some { initB 4 with
             buf := (initB 4).buf ++ List.replicate (initB 4).width 45 ++
               [0x0a] } :=
  line_strict_encoding.1 '-' 45 (initB 4) (by decide)

/-! # Scanner lemmas -/

lemma stripLit_eq {p s r : List Char} (h : stripLit p s = some r) :
    s = p ++ r := by
  induction p generalizing s with
  | nil => simp [stripLit] at h; simp [h]
  | cons x xs ih =>
    cases s with
    | nil => simp [stripLit] at h
    | cons c cs =>
      simp only [stripLit] at h
      by_cases hc : c = x
      · rw [if_pos hc] at h
        subst hc
        simp [ih h]
      · rw [if_neg hc] at h
        exact absurd h (by simp)

lemma stripLit_append (p r : List Char) : stripLit p (p ++ r) = some r := by
  induction p with
  | nil => rfl
  | cons x xs ih => simp [stripLit, ih]

lemma stripLit_head_ne {x : Char} {xs : List Char} {c : Char} {cs : List Char}
    (h : c ≠ x) : stripLit (x :: xs) (c :: cs) = none := by
  simp [stripLit, h]

lemma takeRun_append_eq (p : Char → Bool) (s : List Char) :
    (takeRun p s).1 ++ (takeRun p s).2 = s := by
  induction s with
  | nil => rfl
  | cons c cs ih =>
    simp only [takeRun]
    cases h : p c
    · simp
    · simp [ih]

lemma takeRun_eq_of (p : Char → Bool) (u v : List Char)
    (hall : ∀ c ∈ u, p c = true)
    (hstop : ∀ d, v.head? = some d → p d = false) :
    takeRun p (u ++ v) = (u, v) := by
  induction u with
  | nil =>
    cases v with
    | nil => rfl
    | cons d ds =>
      have hd := hstop d rfl
      simp [takeRun, hd]
  | cons c cs ih =>
    have hc := hall c (by simp)
    have ih2 := ih (fun x hx => hall x (by simp [hx]))
    simp only [List.cons_append, takeRun, hc, if_true, List.append_eq, ih2]

lemma splitSub_eq {pat : List Char} :
    ∀ {s pre post : List Char}, splitSub pat s = some (pre, post) →
      s = pre ++ pat ++ post := by
  intro s
  induction s with
  | nil =>
    intro pre post h
    simp only [splitSub] at h
    cases hs : stripLit pat [] with
    | none => rw [hs] at h; simp at h
    | some r =>
      rw [hs] at h
      simp at h
      obtain ⟨h1, h2⟩ := h
      subst h1
      subst h2
      have := stripLit_eq hs
      simp [← this]
  | cons c cs ih =>
    intro pre post h
    simp only [splitSub] at h
    cases hs : stripLit pat (c :: cs) with
    | some rest =>
      rw [hs] at h
      simp at h
      obtain ⟨h1, h2⟩ := h
      subst h1
      subst h2
      simpa using stripLit_eq hs
    | none =>
      rw [hs] at h
      cases hrec : splitSub pat cs with
      | none => rw [hrec] at h; simp at h
      | some pp =>
        obtain ⟨pre2, post2⟩ := pp
        rw [hrec] at h
        simp at h
        obtain ⟨h1, h2⟩ := h
        subst h1
        subst h2
        have := ih hrec
        simp [this]

lemma splitSub_post_suffix {pat s pre post : List Char}
    (h : splitSub pat s = some (pre, post)) : post <:+ s :=
  ⟨pre ++ pat, (splitSub_eq h).symm⟩

lemma splitSub_post_le {pat s pre post : List Char}
    (h : splitSub pat s = some (pre, post)) : post.length ≤ s.length := by
  have := congrArg List.length (splitSub_eq h)
  simp at this
  omega

/-- The close tag `{{/each}}` has no nontrivial self-overlap. -/
lemma eachClose_no_mid_overlap :
    ∀ t < 9, 0 < t → eachCloseLit.drop t ≠ eachCloseLit.take (9 - t) := by
  decide

lemma containsSub_cons_of {pat body r : List Char}
    (h : stripLit pat body = some r) : containsSub body pat = true := by
  cases body with
  | nil => simp [containsSub, splitSub, h]
  | cons c cs => simp [containsSub, splitSub, h]

/-- If the close tag does not occur in `body`, then scanning
`body ++ close ++ post` finds the appended close tag first, splitting into
`body` and `post` (no occurrence can straddle the `body`/close boundary since
the close tag has no self-overlap). -/
lemma splitSub_append_self {body : List Char} (post : List Char)
    (hc : containsSub body eachCloseLit = false) :
    splitSub eachCloseLit (body ++ (eachCloseLit ++ post)) =
      some (body, post) := by
  induction body with
  | nil =>
    simp only [List.nil_append]
    rw [show eachCloseLit ++ post =
      '\x7b' :: (['\x7b', '/', 'e', 'a', 'c', 'h', '\x7d', '\x7d'] ++ post)
      from rfl]
    simp only [splitSub]
    rw [show stripLit eachCloseLit
        ('\x7b' :: (['\x7b', '/', 'e', 'a', 'c', 'h', '\x7d', '\x7d'] ++ post))
        = some post from stripLit_append _ _]
  | cons c cs ih =>
    have hnothead : stripLit eachCloseLit (c :: cs) = none := by
      cases hs : stripLit eachCloseLit (c :: cs) with
      | none => rfl
      | some r => exact absurd (containsSub_cons_of hs) (by simp [hc])
    have hcs : containsSub cs eachCloseLit = false := by
      simp only [containsSub, splitSub, hnothead] at hc
      cases hrec : splitSub eachCloseLit cs with
      | none => simp [containsSub, hrec]
      | some pp =>
        obtain ⟨p1, p2⟩ := pp
        rw [hrec] at hc
        simp at hc
    have hlen9 : eachCloseLit.length = 9 := by decide
    have hstraddle :
        stripLit eachCloseLit (c :: (cs ++ (eachCloseLit ++ post))) = none := by
      cases hs : stripLit eachCloseLit (c :: (cs ++ (eachCloseLit ++ post))) with
      | none => rfl
      | some r =>
        exfalso
        have heq : c :: (cs ++ (eachCloseLit ++ post)) = eachCloseLit ++ r :=
          stripLit_eq hs
        by_cases hlen : 9 ≤ cs.length + 1
        · -- the close tag would then begin `c :: cs` itself
          have hsplit : (c :: cs).take 9 ++
              ((c :: cs).drop 9 ++ (eachCloseLit ++ post)) = eachCloseLit ++ r := by
            rw [← List.append_assoc, List.take_append_drop]
            simpa using heq
          have hlt : ((c :: cs).take 9).length = eachCloseLit.length := by
            simp [List.length_take, hlen9]
            omega
          have hinj := List.append_inj hsplit hlt
          have hdecomp : c :: cs = eachCloseLit ++ (c :: cs).drop 9 := by
            conv_lhs => rw [← List.take_append_drop 9 (c :: cs)]
            rw [hinj.1]
          have hsome : stripLit eachCloseLit (c :: cs) =
              some ((c :: cs).drop 9) := by
            rw [hdecomp]
            exact stripLit_append _ _
          simp [hsome] at hnothead
        · -- straddling occurrence: contradicts overlap-freeness
          push_neg at hlen
          have ht9 : cs.length + 1 < 9 := hlen
          have hsplit : eachCloseLit.take (cs.length + 1) ++
              (eachCloseLit.drop (cs.length + 1) ++ r) =
              (c :: cs) ++ (eachCloseLit ++ post) := by
            rw [← List.append_assoc, List.take_append_drop]
            simpa using heq.symm
          have hlt : (eachCloseLit.take (cs.length + 1)).length =
              (c :: cs).length := by
            simp [List.length_take, hlen9]
            omega
          have hinj := List.append_inj hsplit hlt
          have hC : eachCloseLit.drop (cs.length + 1) ++ r =
              eachCloseLit ++ post := hinj.2
          have hdl : (eachCloseLit.drop (cs.length + 1)).length =
              9 - (cs.length + 1) := by
            simp [hlen9]
          have htake := congrArg (List.take (9 - (cs.length + 1))) hC
          rw [List.take_append_eq_append_take, hdl, Nat.sub_self,
            List.take_zero, List.append_nil,
            List.take_append_eq_append_take] at htake
          have h0 : 9 - (cs.length + 1) - eachCloseLit.length = 0 := by
            rw [hlen9]; omega
          rw [h0, List.take_zero, List.append_nil] at htake
          have htk : (eachCloseLit.drop (cs.length + 1)).take
              (9 - (cs.length + 1)) = eachCloseLit.drop (cs.length + 1) := by
            conv_lhs => rw [← hdl]
            exact List.take_length _
          rw [htk] at htake
          exact eachClose_no_mid_overlap (cs.length + 1) ht9 (by omega) htake
    show splitSub eachCloseLit ((c :: cs) ++ (eachCloseLit ++ post)) =
      some (c :: cs, post)
    have hstep : (c :: cs) ++ (eachCloseLit ++ post) =
        c :: (cs ++ (eachCloseLit ++ post)) := rfl
    rw [hstep]
    simp only [splitSub, List.append_eq, hstraddle, ih hcs]

lemma word_not_space {c : Char} (h : isPyWord c = true) : pySpace c = false := by
  cases hps : pySpace c
  · rfl
  · exfalso
    simp only [pySpace, Bool.or_eq_true, decide_eq_true_eq] at hps
    rcases hps with ((((rfl | rfl) | rfl) | rfl) | rfl) | rfl <;>
      exact absurd h (by decide)

lemma stripLit_suffix {p s r : List Char} (h : stripLit p s = some r) :
    r <:+ s := ⟨p, (stripLit_eq h).symm⟩

lemma takeRun_sub_suffix (p : Char → Bool) (s : List Char) :
    (takeRun p s).2 <:+ s := ⟨(takeRun p s).1, takeRun_append_eq p s⟩

/-- Full decomposition of a head variable-marker match. -/
lemma varMatchAt_eq {s : List Char} {name : String} {rest : List Char}
    (h : varMatchAt s = some (name, rest)) :
    s = braceOpenLit ++ (name.data ++ (braceCloseLit ++ rest)) ∧
      name.data ≠ [] := by
  unfold varMatchAt at h
  cases h1 : stripLit braceOpenLit s with
  | none => rw [h1] at h; simp at h
  | some r1 =>
    rw [h1] at h
    simp only at h
    by_cases hw : (takeRun isPyWord r1).1.isEmpty
    · rw [if_pos hw] at h; simp at h
    · rw [if_neg hw] at h
      cases h2 : stripLit braceCloseLit (takeRun isPyWord r1).2 with
      | none => rw [h2] at h; simp at h
      | some r3 =>
        rw [h2] at h
        simp at h
        obtain ⟨hn, hr⟩ := h
        subst hr
        have e1 := stripLit_eq h1
        have e2 := takeRun_append_eq isPyWord r1
        have e3 := stripLit_eq h2
        constructor
        · rw [e1, ← e2, e3, ← hn]
        · rw [← hn]
          intro hemp
          rw [show (String.mk (takeRun isPyWord r1).1).data =
            (takeRun isPyWord r1).1 from rfl] at hemp
          rw [hemp] at hw
          exact hw rfl

lemma varMatchAt_len {s : List Char} {name : String} {rest : List Char}
    (h : varMatchAt s = some (name, rest)) : rest.length < s.length := by
  have := congrArg List.length (varMatchAt_eq h).1
  simp [braceOpenLit, braceCloseLit] at this
  omega

lemma varMatchAt_build {name : String} (hne : name.data ≠ [])
    (hw : ∀ c ∈ name.data, isPyWord c = true) (post : List Char) :
    varMatchAt (braceOpenLit ++ (name.data ++ (braceCloseLit ++ post))) =
      some (name, post) := by
  unfold varMatchAt
  rw [stripLit_append]
  have hrun : takeRun isPyWord (name.data ++ (braceCloseLit ++ post)) =
      (name.data, braceCloseLit ++ post) :=
    takeRun_eq_of isPyWord name.data (braceCloseLit ++ post) hw (fun d hd => by
      rw [show ((braceCloseLit ++ post).head? = some d) =
        ((some '\x7d' : Option Char) = some d) from rfl] at hd
      cases hd
      decide)
  simp only [hrun]
  have hemp : name.data.isEmpty = false := by
    cases hd : name.data with
    | nil => exact absurd hd hne
    | cons a l => rfl
  simp only [hemp, Bool.false_eq_true, if_false]
  rw [stripLit_append]

lemma varMatchAt_ne_brace {c : Char} (h : c ≠ '\x7b') (cs : List Char) :
    varMatchAt (c :: cs) = none := by
  unfold varMatchAt
  rw [show braceOpenLit = '\x7b' :: ['\x7b'] from rfl, stripLit_head_ne h]

lemma eachMatchAt_ne_brace {c : Char} (h : c ≠ '\x7b') (cs : List Char) :
    eachMatchAt (c :: cs) = none := by
  unfold eachMatchAt
  rw [show eachOpenLit = '\x7b' :: ['\x7b', '#', 'e', 'a', 'c', 'h'] from rfl,
    stripLit_head_ne h]

lemma eachMatchAt_len {s : List Char} {name : String} {body rest : List Char}
    (h : eachMatchAt s = some (name, body, rest)) : rest.length < s.length := by
  unfold eachMatchAt at h
  cases h1 : stripLit eachOpenLit s with
  | none => rw [h1] at h; simp at h
  | some r1 =>
    rw [h1] at h
    simp only at h
    by_cases hsp : (takeRun pySpace r1).1.isEmpty
    · rw [if_pos hsp] at h; simp at h
    · rw [if_neg hsp] at h
      by_cases hw : (takeRun isPyWord (takeRun pySpace r1).2).1.isEmpty
      · rw [if_pos hw] at h; simp at h
      · rw [if_neg hw] at h
        cases h2 : stripLit braceCloseLit
            (takeRun isPyWord (takeRun pySpace r1).2).2 with
        | none => rw [h2] at h; simp at h
        | some r3 =>
          rw [h2] at h
          simp only at h
          cases h3 : splitSub eachCloseLit r3 with
          | none => rw [h3] at h; simp at h
          | some pp =>
            obtain ⟨bd, rst⟩ := pp
            rw [h3] at h
            simp at h
            obtain ⟨-, -, hr⟩ := h
            subst hr
            have e1 := congrArg List.length (stripLit_eq h1)
            have e2 := congrArg List.length (takeRun_append_eq pySpace r1)
            have e3 := congrArg List.length
              (takeRun_append_eq isPyWord (takeRun pySpace r1).2)
            have e4 := congrArg List.length (stripLit_eq h2)
            have e5 := congrArg List.length (splitSub_eq h3)
            simp [eachOpenLit, braceCloseLit, eachCloseLit] at e1 e2 e3 e4 e5
            omega

lemma eachMatchAt_build {name : String} (hne : name.data ≠ [])
    (hw : ∀ c ∈ name.data, isPyWord c = true) {body : List Char}
    (hbody : containsSub body eachCloseLit = false) (post : List Char) :
    eachMatchAt (eachOpenLit ++
        (' ' :: (name.data ++ (braceCloseLit ++ (body ++ (eachCloseLit ++ post)))))) =
      some (name, body, post) := by
  obtain ⟨d, ds, hd⟩ := List.exists_cons_of_ne_nil hne
  unfold eachMatchAt
  rw [stripLit_append]
  have hsp : takeRun pySpace
      (' ' :: (name.data ++ (braceCloseLit ++ (body ++ (eachCloseLit ++ post))))) =
      ([' '], name.data ++ (braceCloseLit ++ (body ++ (eachCloseLit ++ post)))) := by
    have := takeRun_eq_of pySpace [' ']
      (name.data ++ (braceCloseLit ++ (body ++ (eachCloseLit ++ post))))
      (by intro c hc; simp at hc; subst hc; decide)
      (by
        intro e he
        rw [hd] at he
        simp at he
        subst he
        exact word_not_space (hw d (by rw [hd]; simp)))
    simpa using this
  simp only [hsp, List.isEmpty_cons, Bool.false_eq_true, if_false]
  have hrun : takeRun isPyWord
      (name.data ++ (braceCloseLit ++ (body ++ (eachCloseLit ++ post)))) =
      (name.data, braceCloseLit ++ (body ++ (eachCloseLit ++ post))) :=
    takeRun_eq_of isPyWord name.data
      (braceCloseLit ++ (body ++ (eachCloseLit ++ post))) hw (fun e he => by
      rw [show ((braceCloseLit ++ (body ++ (eachCloseLit ++ post))).head? = some e) =
        ((some '\x7d' : Option Char) = some e) from rfl] at he
      cases he
      decide)
  have hemp : name.data.isEmpty = false := by rw [hd]; rfl
  simp only [hrun, hemp, Bool.false_eq_true, if_false, stripLit_append,
    splitSub_append_self post hbody]

lemma tagMatchAt_tail {s : List Char} {cl : Bool} {nm attrs : String}
    {rest : List Char} (h : tagMatchAt s = some (cl, nm, attrs, rest)) :
    rest <:+ s ∧ rest.length < s.length := by
  unfold tagMatchAt at h
  cases h1 : stripLit ['['] s with
  | none => rw [h1] at h; simp at h
  | some r0 =>
    rw [h1] at h
    simp only at h
    have e1 : s = '[' :: r0 := stripLit_eq h1
    have hsub : ∀ {r2 : List Char}, r2 <:+ r0 → r2 <:+ s ∧ r2.length < s.length := by
      intro r2 h2
      refine ⟨h2.trans ⟨['['], e1.symm⟩, ?_⟩
      have := h2.length_le
      rw [e1]
      simp
      omega
    -- the closing-slash alternative
    set cl2 : Bool × List Char :=
      (match stripLit ['/'] r0 with
       | some r => (true, r)
       | none => (false, r0)) with hcl2
    have hcl2s : cl2.2 <:+ r0 := by
      rw [hcl2]
      cases h2 : stripLit ['/'] r0 with
      | some r => simpa using stripLit_suffix h2
      | none => simp
    by_cases hw : (takeRun isPyWord cl2.2).1.isEmpty
    · rw [if_pos hw] at h; simp at h
    · rw [if_neg hw] at h
      have hws : (takeRun isPyWord cl2.2).2 <:+ r0 :=
        (takeRun_sub_suffix _ _).trans hcl2s
      cases h2 : stripLit [']'] (takeRun isPyWord cl2.2).2 with
      | some r3 =>
        rw [h2] at h
        simp at h
        obtain ⟨-, -, -, hr⟩ := h
        subst hr
        exact hsub ((stripLit_suffix h2).trans hws)
      | none =>
        rw [h2] at h
        by_cases hspe : (takeRun pySpace (takeRun isPyWord cl2.2).2).1.isEmpty
        · rw [if_pos hspe] at h; simp at h
        · rw [if_neg hspe] at h
          cases h3 : stripLit [']']
              (takeRun (fun c => !(c = ']'))
                (takeRun pySpace (takeRun isPyWord cl2.2).2).2).2 with
          | none => rw [h3] at h; simp at h
          | some r5 =>
            rw [h3] at h
            simp at h
            obtain ⟨-, -, -, hr⟩ := h
            subst hr
            exact hsub ((stripLit_suffix h3).trans
              ((takeRun_sub_suffix _ _).trans
                ((takeRun_sub_suffix _ _).trans hws)))

lemma substituteVarsAux_fuel (vars : Bindings) :
    ∀ f1 f2 s, s.length < f1 → s.length < f2 →
      substituteVarsAux vars f1 s = substituteVarsAux vars f2 s := by
  intro f1
  induction f1 with
  | zero => intro f2 s h1 h2; omega
  | succ f ih =>
    intro f2 s h1 h2
    cases f2 with
    | zero => omega
    | succ g =>
      cases s with
      | nil => rfl
      | cons c cs =>
        simp only [substituteVarsAux]
        cases hm : varMatchAt (c :: cs) with
        | some pr =>
          obtain ⟨name, rest⟩ := pr
          have hlen := varMatchAt_len hm
          simp only [List.length_cons] at h1 h2 hlen
          simp only [ih g rest (by omega) (by omega)]
        | none =>
          simp only [List.length_cons] at h1 h2
          simp only [ih g cs (by omega) (by omega)]

lemma processLoopsAux_fuel (vars : Bindings) :
    ∀ f1 f2 s, s.length < f1 → s.length < f2 →
      processLoopsAux vars f1 s = processLoopsAux vars f2 s := by
  intro f1
  induction f1 with
  | zero => intro f2 s h1 h2; omega
  | succ f ih =>
    intro f2 s h1 h2
    cases f2 with
    | zero => omega
    | succ g =>
      cases s with
      | nil => rfl
      | cons c cs =>
        simp only [processLoopsAux]
        cases hm : eachMatchAt (c :: cs) with
        | some pr =>
          obtain ⟨name, body, rest⟩ := pr
          have hlen := eachMatchAt_len hm
          simp only [List.length_cons] at h1 h2 hlen
          simp only [ih g rest (by omega) (by omega)]
        | none =>
          simp only [List.length_cons] at h1 h2
          simp only [ih g cs (by omega) (by omega)]

lemma substituteVariables_match {vars : Bindings} {s : List Char}
    {name : String} {rest : List Char}
    (hm : varMatchAt s = some (name, rest)) :
    substituteVariables s vars =
      (match vars.lookup name with
       | some v => (pyStr v).data
       | none => braceOpenLit ++ name.data ++ braceCloseLit) ++
        substituteVariables rest vars := by
  have hne : s ≠ [] := by
    intro h
    rw [h] at hm
    simp [varMatchAt, braceOpenLit, stripLit] at hm
  obtain ⟨c, cs, rfl⟩ := List.exists_cons_of_ne_nil hne
  have hlen := varMatchAt_len hm
  simp only [List.length_cons] at hlen
  show substituteVarsAux vars ((c :: cs).length + 1) (c :: cs) = _
  rw [show (c :: cs).length + 1 = cs.length + 1 + 1 from by simp]
  simp only [substituteVarsAux, hm]
  rw [substituteVarsAux_fuel vars (cs.length + 1) (rest.length + 1) rest
    (by omega) (by omega)]
  rfl

lemma substituteVariables_skip {vars : Bindings} {c : Char} {cs : List Char}
    (hm : varMatchAt (c :: cs) = none) :
    substituteVariables (c :: cs) vars = c :: substituteVariables cs vars := by
  show substituteVarsAux vars ((c :: cs).length + 1) (c :: cs) = _
  rw [show (c :: cs).length + 1 = cs.length + 1 + 1 from by simp]
  simp only [substituteVarsAux, hm]
  rfl

lemma processLoops_match {vars : Bindings} {s : List Char} {name : String}
    {body rest : List Char} (hm : eachMatchAt s = some (name, body, rest)) :
    processLoops s vars = expandLoop name body vars ++ processLoops rest vars := by
  have hne : s ≠ [] := by
    intro h
    rw [h] at hm
    simp [eachMatchAt, eachOpenLit, stripLit] at hm
  obtain ⟨c, cs, rfl⟩ := List.exists_cons_of_ne_nil hne
  have hlen := eachMatchAt_len hm
  simp only [List.length_cons] at hlen
  show processLoopsAux vars ((c :: cs).length + 1) (c :: cs) = _
  rw [show (c :: cs).length + 1 = cs.length + 1 + 1 from by simp]
  simp only [processLoopsAux, hm]
  rw [processLoopsAux_fuel vars (cs.length + 1) (rest.length + 1) rest
    (by omega) (by omega)]
  rfl

lemma processLoops_skip {vars : Bindings} {c : Char} {cs : List Char}
    (hm : eachMatchAt (c :: cs) = none) :
    processLoops (c :: cs) vars = c :: processLoops cs vars := by
  show processLoopsAux vars ((c :: cs).length + 1) (c :: cs) = _
  rw [show (c :: cs).length + 1 = cs.length + 1 + 1 from by simp]
  simp only [processLoopsAux, hm]
  rfl

/-- C5: after loop expansion, each `{{name}}` marker is replaced with the
stringified binding when bound, and is left as the literal `{{name}}` text
when unbound — never emptied, never an error (substitution is a total
function).  In particular the preview of `"{{x}}"` under empty bindings is
`"{{x}}"` itself. -/
theorem missing_binding_literal :
    (∀ (vars : Bindings) (pre : List Char) (name : String) (post : List Char),
        name.data ≠ [] → (∀ c ∈ name.data, isPyWord c = true) →
        '\x7b' ∉ pre →
        substituteVariables
            (pre ++ (braceOpenLit ++ (name.data ++ (braceCloseLit ++ post))))
            vars =
          pre ++ ((match vars.lookup name with
                   | some v => (pyStr v).data
                   | none => braceOpenLit ++ name.data ++ braceCloseLit) ++
            substituteVariables post vars)) ∧
    renderPreviewFn 48 "\x7b\x7bx\x7d\x7d" [] = some "\x7b\x7bx\x7d\x7d" := by
  constructor
  · intro vars pre name post hne hw hpre
    induction pre with
    | nil =>
      simp only [List.nil_append]
      exact substituteVariables_match (varMatchAt_build hne hw post)
    | cons c cs ih =>
      have hc : c ≠ '\x7b' := by
        intro h
        exact hpre (by simp [h])
      have hcs : '\x7b' ∉ cs := fun h => hpre (by simp [h])
      rw [List.cons_append, substituteVariables_skip (varMatchAt_ne_brace hc _),
        ih hcs]
      rfl
  · decide

theorem missing_binding_literal_witness :
    substituteVariables
        ("A-".data ++ (braceOpenLit ++ ("x".data ++ (braceCloseLit ++ "!".data))))
        [] =
      "A-".data ++ ((braceOpenLit ++ "x".data ++ braceCloseLit) ++
        substituteVariables "!".data []) :=
  missing_binding_literal.1 [] "A-".data "x" "!".data (by decide) (by decide)
    (by decide)

/-- C6: loop expansion is textual and precedes variable substitution (the
last conjunct states `render`'s phase order definitionally).  For a
`{{#each name}}body{{/each}}` block (body free of close tags) in any context
whose prefix contains no brace: a non-list binding (or an absent one,
defaulting to the empty list) contributes empty output; a list binding emits
the body once per item in order, with `{{key}}` replaced by the item's fields
for a mapping item and `{{.}}` by the stringified scalar otherwise. -/
theorem each_loop_expansion :
    (∀ (vars : Bindings) (pre : List Char) (name : String)
        (body post : List Char),
        name.data ≠ [] → (∀ c ∈ name.data, isPyWord c = true) →
        '\x7b' ∉ pre → containsSub body eachCloseLit = false →
        processLoops
            (pre ++ (eachOpenLit ++ (' ' :: (name.data ++
              (braceCloseLit ++ (body ++ (eachCloseLit ++ post))))))) vars =
          pre ++ ((match (vars.lookup name).getD (PyVal.list []) with
                   | .list items =>
                     (items.map (fun item =>
                       match item with
                       | .map kvs =>
                         kvs.foldl (fun acc kv =>
                           replaceSub acc
                             (braceOpenLit ++ kv.1.data ++ braceCloseLit)
                             (pyStrScalar kv.2).data) body
                       | .scalar v =>
                         replaceSub body
                           (braceOpenLit ++ ['.'] ++ braceCloseLit)
                           (pyStrScalar v).data)).flatten
                   | .scalar _ => []) ++ processLoops post vars)) ∧
    (∀ (w : Nat) (t : String) (vars : Bindings),
        renderBytes w t vars =
          (renderContentAux
              (substituteVariables (processLoops t.data vars) vars)
              (initB w) []).map buildB ∧
        renderPreviewFn w t vars =
          (match previewAux w
              (substituteVariables (processLoops t.data vars) vars)
              ⟨[], [], .left⟩ with
           | none => none
           | some st =>
             some (String.intercalate "\n"
               (if st.cur.isEmpty then st.lines
                else st.lines ++ [alignText w st.cur st.align])))) := by
  constructor
  · intro vars pre name body post hne hw hpre hbody
    induction pre with
    | nil =>
      simp only [List.nil_append]
      rw [processLoops_match (eachMatchAt_build hne hw hbody post)]
      rfl
    | cons c cs ih =>
      have hc : c ≠ '\x7b' := by
        intro h
        exact hpre (by simp [h])
      have hcs : '\x7b' ∉ cs := fun h => hpre (by simp [h])
      rw [List.cons_append, processLoops_skip (eachMatchAt_ne_brace hc _),
        ih hcs]
      rfl
  · intro w t vars
    exact ⟨rfl, rfl⟩

theorem each_loop_expansion_witness :
    processLoops
        ("A".data ++ (eachOpenLit ++ (' ' :: ("it".data ++
          (braceCloseLit ++ ("<\x7b\x7b.\x7d\x7d>".data ++
            (eachCloseLit ++ "B".data))))))) 
        [("it", PyVal.list [PyItem.scalar (PyScalar.s "u"),
                            PyItem.scalar (PyScalar.i 2)])] =
      "A".data ++ (("<u><2>".data) ++ processLoops "B".data
        [("it", PyVal.list [PyItem.scalar (PyScalar.s "u"),
                            PyItem.scalar (PyScalar.i 2)])]) := by
  have h := each_loop_expansion.1
    [("it", PyVal.list [PyItem.scalar (PyScalar.s "u"),
                        PyItem.scalar (PyScalar.i 2)])]
    "A".data "it" "<\x7b\x7b.\x7d\x7d>".data "B".data
    (by decide) (by decide) (by decide) (by decide)
  rw [h]
  rfl

lemma char_toNat_inj {a b : Char} (h : a.toNat = b.toNat) : a = b := by
  apply Char.ext
  exact UInt32.ext h

lemma lexLe_total : ∀ a b : List Char, lexLe a b = true ∨ lexLe b a = true
  | [], _ => Or.inl rfl
  | _ :: _, [] => Or.inr rfl
  | a :: as, b :: bs => by
    by_cases hab : a = b
    · subst hab
      simp only [lexLe, if_pos rfl]
      exact lexLe_total as bs
    · have hba : b ≠ a := fun h => hab h.symm
      have hne : a.toNat ≠ b.toNat := fun h => hab (char_toNat_inj h)
      simp only [lexLe, if_neg hab, if_neg hba, decide_eq_true_eq]
      omega

lemma lexLe_trans : ∀ {a b c : List Char}, lexLe a b = true →
    lexLe b c = true → lexLe a c = true
  | [], _, _, _, _ => rfl
  | _ :: _, [], _, h, _ => by simp [lexLe] at h
  | _ :: _, _ :: _, [], _, h => by simp [lexLe] at h
  | a :: as, b :: bs, c :: cs, h1, h2 => by
    by_cases hab : a = b <;> by_cases hbc : b = c
    · subst hab; subst hbc
      simp only [lexLe, if_pos rfl] at h1 h2 ⊢
      exact lexLe_trans h1 h2
    · subst hab
      simp only [lexLe, if_neg hbc] at h2 ⊢
      exact h2
    · subst hbc
      simp only [lexLe, if_neg hab] at h1 ⊢
      exact h1
    · simp only [lexLe, if_neg hab, if_neg hbc, decide_eq_true_eq] at h1 h2
      have hac : a ≠ c := by
        intro h
        subst h
        have : a.toNat ≠ b.toNat := fun h => hab (char_toNat_inj h)
        omega
      simp only [lexLe, if_neg hac, decide_eq_true_eq]
      omega

lemma lexLt_iff : ∀ a b : List Char,
    lexLt a b = true ↔ (lexLe a b = true ∧ a ≠ b)
  | [], [] => by simp [lexLt, lexLe]
  | [], _ :: _ => by simp [lexLt, lexLe]
  | _ :: _, [] => by simp [lexLt, lexLe]
  | a :: as, b :: bs => by
    by_cases hab : a = b
    · subst hab
      simp only [lexLt, lexLe, eq_self_iff_true, if_true, List.cons.injEq,
        true_and]
      rw [lexLt_iff as bs]
      simp
    · have hne : (a :: as) ≠ (b :: bs) := by simp [hab]
      simp only [lexLt, lexLe, if_neg hab]
      simp [hne]

lemma strLe_total (a b : String) : strLe a b = true ∨ strLe b a = true :=
  lexLe_total a.data b.data

lemma insertSorted_perm (x : String) (l : List String) :
    (insertSorted x l).Perm (x :: l) := by
  induction l with
  | nil => exact List.Perm.refl _
  | cons y ys ih =>
    simp only [insertSorted]
    by_cases h : strLe x y
    · rw [if_pos h]
    · rw [if_neg h]
      exact (ih.cons y).trans (List.Perm.swap x y ys)

lemma insertSorted_sorted {x : String} {l : List String}
    (h : l.Sorted (fun a b => strLe a b = true)) :
    (insertSorted x l).Sorted (fun a b => strLe a b = true) := by
  induction l with
  | nil => simp [insertSorted]
  | cons y ys ih =>
    simp only [insertSorted]
    rw [List.sorted_cons] at h
    obtain ⟨hy, hys⟩ := h
    by_cases hxy : strLe x y = true
    · rw [if_pos hxy, List.sorted_cons]
      refine ⟨?_, List.sorted_cons.mpr ⟨hy, hys⟩⟩
      intro b hb
      rcases List.mem_cons.mp hb with rfl | hbys
      · exact hxy
      · exact lexLe_trans hxy (hy b hbys)
    · rw [if_neg hxy, List.sorted_cons]
      refine ⟨?_, ih hys⟩
      intro b hb
      have hmem := (insertSorted_perm x ys).mem_iff.mp hb
      rcases List.mem_cons.mp hmem with rfl | hbys
      · rcases strLe_total y b with h | h
        · exact h
        · exact absurd h hxy
      · exact hy b hbys

lemma sortStrings_perm (l : List String) : (sortStrings l).Perm l := by
  induction l with
  | nil => exact List.Perm.refl _
  | cons x xs ih =>
    exact (insertSorted_perm x (sortStrings xs)).trans (ih.cons x)

lemma sortStrings_sorted (l : List String) :
    (sortStrings l).Sorted (fun a b => strLe a b = true) := by
  induction l with
  | nil => simp [sortStrings]
  | cons x xs ih => exact insertSorted_sorted ih

/-- C1 (amended): `extract_variables` returns the deduplicated, strictly
ascending (code-point lexicographic) union of every `{{name}}` reference —
including `{{key}}` field references inside loop bodies, which the variable
regex also matches — and every `{{#each name}}` list name; it is a function
of the template alone, hence independent of any bindings. -/
theorem extract_variables_sorted_union (t : String) :
    (extractVariables t).Sorted (fun a b => strLt a b = true) ∧
    ∀ v : String, v ∈ extractVariables t ↔
      (v ∈ varOccs t.data ∨ v ∈ eachOccs t.data) := by
  have hperm := sortStrings_perm ((varOccs t.data ++ eachOccs t.data).dedup)
  constructor
  · have hsle := sortStrings_sorted ((varOccs t.data ++ eachOccs t.data).dedup)
    have hnd : (sortStrings ((varOccs t.data ++ eachOccs t.data).dedup)).Nodup :=
      hperm.nodup_iff.mpr (List.nodup_dedup _)
    exact (hsle.and hnd).imp (fun {a b} h => by
      refine (lexLt_iff a.data b.data).mpr ⟨h.1, fun he => h.2 ?_⟩
      exact congrArg String.mk he)
  · intro v
    show v ∈ sortStrings _ ↔ _
    rw [hperm.mem_iff, List.mem_dedup, List.mem_append]

/-- C1 counterexample: on `"{{a}} {{#each b}}{{c}}{{/each}}"` the code
returns `["a", "b", "c"]` — the loop-body field `{{c}}` is matched by the
variable regex too — not `["a", "b"]` as the claim states. -/
theorem extract_variables_loop_body_counterexample :
    extractVariables
        "\x7b\x7ba\x7d\x7d \x7b\x7b#each b\x7d\x7d\x7b\x7bc\x7d\x7d\x7b\x7b/each\x7d\x7d" =
      ["a", "b", "c"] ∧
    extractVariables
        "\x7b\x7ba\x7d\x7d \x7b\x7b#each b\x7d\x7d\x7b\x7bc\x7d\x7d\x7b\x7b/each\x7d\x7d" ≠
      ["a", "b"] := by
  constructor
  · decide
  · decide

/-! # Step and loop lemmas for the two scanners -/

lemma renderStep_spec {c : Char} {cs : List Char} {b : Builder}
    {tb s2 : List Char} {b2 : Builder} {tb2 : List Char}
    (h : renderStep c cs b tb = some (s2, b2, tb2)) :
    s2 <:+ (c :: cs) ∧ s2.length ≤ cs.length := by
  unfold renderStep at h
  cases hm : tagMatchAt (c :: cs) with
  | some q =>
    obtain ⟨closing, nm0, attrs, rest⟩ := q
    rw [hm] at h
    simp only at h
    have htail := tagMatchAt_tail hm
    have hrest : rest <:+ (c :: cs) ∧ rest.length ≤ cs.length := by
      refine ⟨htail.1, ?_⟩
      have := htail.2
      simp only [List.length_cons] at this
      omega
    cases hh : handleTag (flushText b tb) (pyLower nm0) attrs closing with
    | none => rw [hh] at h; simp at h
    | some bb =>
      rw [hh] at h
      simp only at h
      by_cases hcond :
          ((pyLower nm0 = "barcode" || pyLower nm0 = "qr") && !closing) = true
      · rw [if_pos hcond] at h
        cases hsp : splitSub (closeTagLit (pyLower nm0)) rest with
        | none =>
          rw [hsp] at h
          simp at h
          obtain ⟨h1, -, h3⟩ := h
          subst h1
          exact hrest
        | some pp =>
          obtain ⟨payload, rest2⟩ := pp
          rw [hsp] at h
          simp only at h
          by_cases hpe : payload.isEmpty
          · rw [if_pos hpe] at h
            simp at h
            obtain ⟨h1, -, -⟩ := h
            subst h1
            exact hrest
          · rw [if_neg hpe] at h
            cases he : emitSymbol bb (pyLower nm0) attrs payload with
            | none => rw [he] at h; simp at h
            | some b3 =>
              rw [he] at h
              simp at h
              obtain ⟨h1, -, -⟩ := h
              subst h1
              have h2 := splitSub_post_le hsp
              exact ⟨(splitSub_post_suffix hsp).trans hrest.1, by omega⟩
      · rw [if_neg hcond] at h
        simp at h
        obtain ⟨h1, -, -⟩ := h
        subst h1
        exact hrest
  | none =>
    rw [hm] at h
    by_cases hnl : c = '\n'
    · rw [if_pos hnl] at h
      simp at h
      obtain ⟨h1, -, -⟩ := h
      subst h1
      exact ⟨⟨[c], rfl⟩, le_refl _⟩
    · rw [if_neg hnl] at h
      simp at h
      obtain ⟨h1, -, -⟩ := h
      subst h1
      exact ⟨⟨[c], rfl⟩, le_refl _⟩

lemma previewStep_spec {w : Nat} {c : Char} {cs : List Char} {st : PState}
    {s2 : List Char} {st2 : PState}
    (h : previewStep w c cs st = some (s2, st2)) :
    s2 <:+ (c :: cs) ∧ s2.length ≤ cs.length := by
  unfold previewStep at h
  cases hm : tagMatchAt (c :: cs) with
  | some q =>
    obtain ⟨closing, nm0, attrs, rest⟩ := q
    rw [hm] at h
    simp only at h
    have htail := tagMatchAt_tail hm
    have hrest : rest <:+ (c :: cs) ∧ rest.length ≤ cs.length := by
      refine ⟨htail.1, ?_⟩
      have := htail.2
      simp only [List.length_cons] at this
      omega
    -- walk the if/elif chain: every branch yields `rest` or a split suffix
    by_cases h1 : (pyLower nm0 = "center" && !closing) = true
    · rw [if_pos h1] at h; simp at h; obtain ⟨hh, -⟩ := h; subst hh; exact hrest
    · rw [if_neg h1] at h
      by_cases h2 : (pyLower nm0 = "center" && closing) = true
      · rw [if_pos h2] at h; simp at h; obtain ⟨hh, -⟩ := h; subst hh
        exact hrest
      · rw [if_neg h2] at h
        by_cases h3 : (pyLower nm0 = "right" && !closing) = true
        · rw [if_pos h3] at h; simp at h; obtain ⟨hh, -⟩ := h; subst hh
          exact hrest
        · rw [if_neg h3] at h
          by_cases h4 : (pyLower nm0 = "right" && closing) = true
          · rw [if_pos h4] at h; simp at h; obtain ⟨hh, -⟩ := h; subst hh
            exact hrest
          · rw [if_neg h4] at h
            by_cases h5 : pyLower nm0 = "left"
            · rw [if_pos h5] at h; simp at h; obtain ⟨hh, -⟩ := h; subst hh
              exact hrest
            · rw [if_neg h5] at h
              by_cases h6 : pyLower nm0 = "line"
              · rw [if_pos h6] at h; simp at h; obtain ⟨hh, -⟩ := h; subst hh
                exact hrest
              · rw [if_neg h6] at h
                by_cases h7 : pyLower nm0 = "cut"
                · rw [if_pos h7] at h; simp at h; obtain ⟨hh, -⟩ := h
                  subst hh
                  exact hrest
                · rw [if_neg h7] at h
                  by_cases h8 : pyLower nm0 = "feed"
                  · rw [if_pos h8] at h
                    cases hn : pyInt? (parseAttr attrs "n" "1") with
                    | none => rw [hn] at h; simp at h
                    | some n =>
                      rw [hn] at h
                      simp at h
                      obtain ⟨hh, -⟩ := h
                      subst hh
                      exact hrest
                  · rw [if_neg h8] at h
                    by_cases h9 : pyLower nm0 = "barcode"
                    · rw [if_pos h9] at h
                      cases hsp : splitSub (closeTagLit "barcode") rest with
                      | none =>
                        rw [hsp] at h
                        simp at h
                        obtain ⟨hh, -⟩ := h
                        subst hh
                        exact hrest
                      | some pp =>
                        obtain ⟨payload, rest2⟩ := pp
                        rw [hsp] at h
                        simp only at h
                        by_cases hpe : payload.isEmpty
                        · rw [if_pos hpe] at h
                          simp at h
                          obtain ⟨hh, -⟩ := h
                          subst hh
                          exact hrest
                        · rw [if_neg hpe] at h
                          simp at h
                          obtain ⟨hh, -⟩ := h
                          subst hh
                          have h2l := splitSub_post_le hsp
                          exact ⟨(splitSub_post_suffix hsp).trans hrest.1,
                            by omega⟩
                    · rw [if_neg h9] at h
                      by_cases h10 : pyLower nm0 = "qr"
                      · rw [if_pos h10] at h
                        cases hsp : splitSub (closeTagLit "qr") rest with
                        | none =>
                          rw [hsp] at h
                          simp at h
                          obtain ⟨hh, -⟩ := h
                          subst hh
                          exact hrest
                        | some pp =>
                          obtain ⟨payload, rest2⟩ := pp
                          rw [hsp] at h
                          simp only at h
                          by_cases hpe : payload.isEmpty
                          · rw [if_pos hpe] at h
                            simp at h
                            obtain ⟨hh, -⟩ := h
                            subst hh
                            exact hrest
                          · rw [if_neg hpe] at h
                            simp at h
                            obtain ⟨hh, -⟩ := h
                            subst hh
                            have h2l := splitSub_post_le hsp
                            exact ⟨(splitSub_post_suffix hsp).trans hrest.1,
                              by omega⟩
                      · rw [if_neg h10] at h
                        by_cases h11 : pyLower nm0 = "image"
                        · rw [if_pos h11] at h
                          simp at h
                          obtain ⟨hh, -⟩ := h
                          subst hh
                          exact hrest
                        · rw [if_neg h11] at h
                          simp at h
                          obtain ⟨hh, -⟩ := h
                          subst hh
                          exact hrest
  | none =>
    rw [hm] at h
    by_cases hnl : c = '\n'
    · rw [if_pos hnl] at h
      simp at h
      obtain ⟨h1, -⟩ := h
      subst h1
      exact ⟨⟨[c], rfl⟩, le_refl _⟩
    · rw [if_neg hnl] at h
      simp at h
      obtain ⟨h1, -⟩ := h
      subst h1
      exact ⟨⟨[c], rfl⟩, le_refl _⟩

lemma renderLoopB_fuel :
    ∀ f1 f2 s b tb, s.length < f1 → s.length < f2 →
      renderLoopB f1 s b tb = renderLoopB f2 s b tb := by
  intro f1
  induction f1 with
  | zero => intro f2 s b tb h1 h2; omega
  | succ f ih =>
    intro f2 s b tb h1 h2
    cases f2 with
    | zero => omega
    | succ g =>
      cases s with
      | nil => rfl
      | cons c cs =>
        simp only [List.length_cons] at h1 h2
        simp only [renderLoopB]
        cases hstep : renderStep c cs b tb with
        | none => rfl
        | some t =>
          obtain ⟨s2, b2, tb2⟩ := t
          have hlen := (renderStep_spec hstep).2
          simp only [ih g s2 b2 tb2 (by omega) (by omega)]

lemma previewLoop_fuel (w : Nat) :
    ∀ f1 f2 s st, s.length < f1 → s.length < f2 →
      previewLoop w f1 s st = previewLoop w f2 s st := by
  intro f1
  induction f1 with
  | zero => intro f2 s st h1 h2; omega
  | succ f ih =>
    intro f2 s st h1 h2
    cases f2 with
    | zero => omega
    | succ g =>
      cases s with
      | nil => rfl
      | cons c cs =>
        simp only [List.length_cons] at h1 h2
        simp only [previewLoop]
        cases hstep : previewStep w c cs st with
        | none => rfl
        | some t =>
          obtain ⟨s2, st2⟩ := t
          have hlen := (previewStep_spec hstep).2
          simp only [ih g s2 st2 (by omega) (by omega)]

lemma renderContentAux_cons (c : Char) (cs : List Char) (b : Builder)
    (tb : List Char) :
    renderContentAux (c :: cs) b tb =
      match renderStep c cs b tb with
      | none => none
      | some (s2, b2, tb2) => renderContentAux s2 b2 tb2 := by
  show renderLoopB ((c :: cs).length + 1) (c :: cs) b tb = _
  rw [show (c :: cs).length + 1 = cs.length + 1 + 1 from by simp]
  simp only [renderLoopB]
  cases hstep : renderStep c cs b tb with
  | none => rfl
  | some t =>
    obtain ⟨s2, b2, tb2⟩ := t
    have hlen := (renderStep_spec hstep).2
    simp only
    exact renderLoopB_fuel (cs.length + 1) (s2.length + 1) s2 b2 tb2
      (by omega) (by omega)

lemma previewAux_cons (w : Nat) (c : Char) (cs : List Char) (st : PState) :
    previewAux w (c :: cs) st =
      match previewStep w c cs st with
      | none => none
      | some (s2, st2) => previewAux w s2 st2 := by
  show previewLoop w ((c :: cs).length + 1) (c :: cs) st = _
  rw [show (c :: cs).length + 1 = cs.length + 1 + 1 from by simp]
  simp only [previewLoop]
  cases hstep : previewStep w c cs st with
  | none => rfl
  | some t =>
    obtain ⟨s2, st2⟩ := t
    have hlen := (previewStep_spec hstep).2
    simp only
    exact previewLoop_fuel w (cs.length + 1) (s2.length + 1) s2 st2
      (by omega) (by omega)

lemma tagMatchAt_qr (rest : List Char) :
    tagMatchAt ('[' :: 'q' :: 'r' :: ']' :: rest) =
      some (false, "qr", "", rest) := by
  unfold tagMatchAt
  rw [show stripLit ['['] ('[' :: 'q' :: 'r' :: ']' :: rest) =
    some ('q' :: 'r' :: ']' :: rest) from rfl]
  simp only
  rw [show stripLit ['/'] ('q' :: 'r' :: ']' :: rest) = none from rfl]
  simp only
  rw [show takeRun isPyWord ('q' :: 'r' :: ']' :: rest) =
    (['q', 'r'], ']' :: rest) from
    takeRun_eq_of isPyWord ['q', 'r'] (']' :: rest) (by decide) (fun d hd => by
      simp at hd
      subst hd
      decide)]
  simp only [List.isEmpty_cons, Bool.false_eq_true, if_false]
  rw [show stripLit [']'] (']' :: rest) = some rest from rfl]

lemma tagMatchAt_barcode (rest : List Char) :
    tagMatchAt
        ('[' :: 'b' :: 'a' :: 'r' :: 'c' :: 'o' :: 'd' :: 'e' :: ']' :: rest) =
      some (false, "barcode", "", rest) := by
  unfold tagMatchAt
  rw [show stripLit ['[']
    ('[' :: 'b' :: 'a' :: 'r' :: 'c' :: 'o' :: 'd' :: 'e' :: ']' :: rest) =
    some ('b' :: 'a' :: 'r' :: 'c' :: 'o' :: 'd' :: 'e' :: ']' :: rest) from rfl]
  simp only
  rw [show stripLit ['/'] ('b' :: 'a' :: 'r' :: 'c' :: 'o' :: 'd' :: 'e' :: ']' :: rest)
    = none from rfl]
  simp only
  rw [show takeRun isPyWord ('b' :: 'a' :: 'r' :: 'c' :: 'o' :: 'd' :: 'e' :: ']' :: rest) =
    (['b', 'a', 'r', 'c', 'o', 'd', 'e'], ']' :: rest) from
    takeRun_eq_of isPyWord ['b', 'a', 'r', 'c', 'o', 'd', 'e'] (']' :: rest)
      (by decide) (fun d hd => by
        simp at hd
        subst hd
        decide)]
  simp only [List.isEmpty_cons, Bool.false_eq_true, if_false]
  rw [show stripLit [']'] (']' :: rest) = some rest from rfl]

lemma renderStep_qr_unmatched {rest : List Char} (b : Builder) (tb : List Char)
    (h : splitSub (closeTagLit "qr") rest = none) :
    renderStep '[' ('q' :: 'r' :: ']' :: rest) b tb =
      some (rest, flushText b tb, []) := by
  unfold renderStep
  rw [tagMatchAt_qr]
  simp only [show pyLower "qr" = "qr" from by decide]
  rw [show handleTag (flushText b tb) "qr" "" false = some (flushText b tb)
    from by simp [handleTag]]
  simp only [h]
  simp

lemma renderStep_barcode_unmatched {rest : List Char} (b : Builder)
    (tb : List Char) (h : splitSub (closeTagLit "barcode") rest = none) :
    renderStep '[' ('b' :: 'a' :: 'r' :: 'c' :: 'o' :: 'd' :: 'e' :: ']' :: rest)
        b tb =
      some (rest, flushText b tb, []) := by
  unfold renderStep
  rw [tagMatchAt_barcode]
  simp only [show pyLower "barcode" = "barcode" from by decide]
  rw [show handleTag (flushText b tb) "barcode" "" false = some (flushText b tb)
    from by simp [handleTag]]
  simp only [h]
  simp

lemma previewStep_qr_unmatched {w : Nat} {rest : List Char} {st : PState}
    (h : splitSub (closeTagLit "qr") rest = none) :
    previewStep w '[' ('q' :: 'r' :: ']' :: rest) st =
      some (rest, flushCur w st) := by
  unfold previewStep
  rw [tagMatchAt_qr]
  simp only [show pyLower "qr" = "qr" from by decide]
  simp [h]

lemma previewStep_barcode_unmatched {w : Nat} {rest : List Char} {st : PState}
    (h : splitSub (closeTagLit "barcode") rest = none) :
    previewStep w '[' ('b' :: 'a' :: 'r' :: 'c' :: 'o' :: 'd' :: 'e' :: ']' :: rest)
        st =
      some (rest, flushCur w st) := by
  unfold previewStep
  rw [tagMatchAt_barcode]
  simp only [show pyLower "barcode" = "barcode" from by decide]
  simp [h]

/-- C9: an opening `[barcode]` or `[qr]` tag with no matching close tag
anywhere after it emits no symbol and no bracketed marker: the scanner
consumes only the opening tag (flushing pending text, as for every tag), and
the inner text continues to be scanned as ordinary literal content, in both
the binary and the preview paths. -/
theorem unmatched_symbol_tag_inert (w : Nat) (rest : List Char) (b : Builder)
    (tb : List Char) (st : PState)
    (hqr : splitSub (closeTagLit "qr") rest = none)
    (hbc : splitSub (closeTagLit "barcode") rest = none) :
    renderContentAux ('[' :: 'q' :: 'r' :: ']' :: rest) b tb =
      renderContentAux rest (flushText b tb) [] ∧
    renderContentAux
        ('[' :: 'b' :: 'a' :: 'r' :: 'c' :: 'o' :: 'd' :: 'e' :: ']' :: rest)
        b tb =
      renderContentAux rest (flushText b tb) [] ∧
    previewAux w ('[' :: 'q' :: 'r' :: ']' :: rest) st =
      previewAux w rest (flushCur w st) ∧
    previewAux w
        ('[' :: 'b' :: 'a' :: 'r' :: 'c' :: 'o' :: 'd' :: 'e' :: ']' :: rest)
        st =
      previewAux w rest (flushCur w st) := by
  refine ⟨?_, ?_, ?_, ?_⟩
  · rw [renderContentAux_cons, renderStep_qr_unmatched b tb hqr]
  · rw [renderContentAux_cons, renderStep_barcode_unmatched b tb hbc]
  · rw [previewAux_cons, previewStep_qr_unmatched hqr]
  · rw [previewAux_cons, previewStep_barcode_unmatched hbc]

theorem unmatched_symbol_tag_inert_witness :
    renderContentAux ('[' :: 'q' :: 'r' :: ']' :: "hello".data) (initB 48) [] =
      renderContentAux "hello".data (flushText (initB 48) []) [] ∧
    renderContentAux
        ('[' :: 'b' :: 'a' :: 'r' :: 'c' :: 'o' :: 'd' :: 'e' :: ']' ::
          "hello".data) (initB 48) [] =
      renderContentAux "hello".data (flushText (initB 48) []) [] ∧
    previewAux 48 ('[' :: 'q' :: 'r' :: ']' :: "hello".data)
        ⟨[], [], PAlign.left⟩ =
      previewAux 48 "hello".data (flushCur 48 ⟨[], [], PAlign.left⟩) ∧
    previewAux 48
        ('[' :: 'b' :: 'a' :: 'r' :: 'c' :: 'o' :: 'd' :: 'e' :: ']' ::
          "hello".data) ⟨[], [], PAlign.left⟩ =
      previewAux 48 "hello".data (flushCur 48 ⟨[], [], PAlign.left⟩) :=
  unmatched_symbol_tag_inert 48 "hello".data (initB 48) []
    ⟨[], [], PAlign.left⟩ (by decide) (by decide)

/-! # Lemmas for the no-raise conditions (C2) -/

lemma encodeCp437Strict_cons_isSome (c : Char) (cs : List Char) :
    (encodeCp437Strict (c :: cs)).isSome =
      ((cp437Byte? c).isSome && (encodeCp437Strict cs).isSome) := by
  show (match cp437Byte? c, encodeCp437Strict cs with
    | some b, some bs => some (b :: bs)
    | _, _ => none).isSome = _
  cases cp437Byte? c <;> cases encodeCp437Strict cs <;> rfl

lemma encodeCp437Strict_append_some : ∀ {a : List Char} (b : List Char),
    (encodeCp437Strict a).isSome = true → (encodeCp437Strict b).isSome = true →
    (encodeCp437Strict (a ++ b)).isSome = true
  | [], b, _, hb => by simpa using hb
  | c :: cs, b, ha, hb => by
    rw [List.cons_append, encodeCp437Strict_cons_isSome]
    rw [encodeCp437Strict_cons_isSome] at ha
    simp only [Bool.and_eq_true] at ha ⊢
    exact ⟨ha.1, encodeCp437Strict_append_some b ha.2 hb⟩

lemma encodeCp437Strict_repeat {s : String}
    (h : (encodeCp437Strict s.data).isSome = true) (n : Nat) :
    (encodeCp437Strict (pyStrRepeat s n).data).isSome = true := by
  induction n with
  | zero => rfl
  | succ m ih =>
    show (encodeCp437Strict (s ++ pyStrRepeat s m).data).isSome = true
    rw [String.data_append]
    exact encodeCp437Strict_append_some _ h ih

lemma lineB_isSome {char : String} (b : Builder)
    (h : (encodeCp437Strict char.data).isSome = true) :
    (lineB char b).isSome = true := by
  unfold lineB
  have hrep := encodeCp437Strict_repeat h b.width
  cases he : encodeCp437Strict (pyStrRepeat char b.width).data with
  | none => rw [he] at hrep; simp at hrep
  | some bs => rfl

lemma handleTag_isSome {b : Builder} {nm attrs : String} {closing : Bool}
    (hline : nm = "line" →
      (encodeCp437Strict (parseAttr attrs "char" "-").data).isSome = true)
    (hfeed : nm = "feed" →
      (pyInt? (parseAttr attrs "n" "1")).isSome = true) :
    (handleTag b nm attrs closing).isSome = true := by
  simp only [handleTag]
  by_cases h1 : nm = "center"
  · simp [h1]
  rw [if_neg h1]
  by_cases h2 : nm = "right"
  · simp [h2]
  rw [if_neg h2]
  by_cases h3 : nm = "left"
  · simp [h3]
  rw [if_neg h3]
  by_cases h4 : nm = "bold"
  · simp [h4]
  rw [if_neg h4]
  by_cases h5 : nm = "underline"
  · simp [h5]
  rw [if_neg h5]
  by_cases h6 : nm = "double-height"
  · simp [h6]
  rw [if_neg h6]
  by_cases h7 : nm = "double-width"
  · simp [h7]
  rw [if_neg h7]
  by_cases h8 : nm = "double-size"
  · simp [h8]
  rw [if_neg h8]
  by_cases h9 : nm = "normal"
  · simp [h9]
  rw [if_neg h9]
  by_cases hl : nm = "line"
  · rw [if_pos hl]
    exact lineB_isSome b (hline hl)
  rw [if_neg hl]
  by_cases hf : nm = "feed"
  · rw [if_pos hf]
    have hp := hfeed hf
    cases hpi : pyInt? (parseAttr attrs "n" "1") with
    | none => rw [hpi] at hp; simp at hp
    | some n => rfl
  rw [if_neg hf]
  by_cases hc : nm = "cut"
  · simp [hc]
  rw [if_neg hc]
  by_cases hi : nm = "image"
  · rw [if_pos hi]
    by_cases hs : parseAttr attrs "src" "" = ""
    · rw [if_pos hs]
      rfl
    · rw [if_neg hs]
      rfl
  rw [if_neg hi]
  rfl

lemma emitSymbol_isSome {b : Builder} {nm attrs : String} {payload : List Char}
    (h : nm = "barcode" ∨ (pyInt? (parseAttr attrs "size" "4")).isSome = true) :
    (emitSymbol b nm attrs payload).isSome = true := by
  unfold emitSymbol
  by_cases hb : nm = "barcode"
  · rw [if_pos hb]
    rfl
  · rw [if_neg hb]
    rcases h with h | h
    · exact absurd h hb
    · cases hpi : pyInt? (parseAttr attrs "size" "4") with
      | none => rw [hpi] at h; simp at h
      | some n => rfl

lemma renderStep_isSome {c : Char} {cs : List Char} (b : Builder)
    (tb : List Char) (hs : tagSafeBin (c :: cs) = true) :
    (renderStep c cs b tb).isSome = true := by
  unfold renderStep
  unfold tagSafeBin at hs
  cases hm : tagMatchAt (c :: cs) with
  | none =>
    by_cases hnl : c = '\n'
    · simp [hnl]
    · simp [hnl]
  | some q =>
    obtain ⟨closing, nm0, attrs, rest⟩ := q
    simp only
    rw [hm] at hs
    simp only [Bool.and_eq_true, Bool.or_eq_true, Bool.not_eq_true',
      beq_eq_false_iff_ne] at hs
    obtain ⟨⟨hfeed, hline⟩, hqr⟩ := hs
    have hh : (handleTag (flushText b tb) (pyLower nm0) attrs closing).isSome
        = true := by
      apply handleTag_isSome
      · intro he
        rcases hline with h | h
        · exact absurd he h
        · exact h
      · intro he
        rcases hfeed with h | h
        · exact absurd he h
        · exact h
    cases hh2 : handleTag (flushText b tb) (pyLower nm0) attrs closing with
    | none => rw [hh2] at hh; simp at hh
    | some b2 =>
      simp only
      by_cases hcond :
          ((pyLower nm0 = "barcode" || pyLower nm0 = "qr") && !closing) = true
      · rw [if_pos hcond]
        cases hsp : splitSub (closeTagLit (pyLower nm0)) rest with
        | none => rfl
        | some pp =>
          obtain ⟨payload, rest2⟩ := pp
          simp only
          by_cases hpe : payload.isEmpty
          · rw [if_pos hpe]
            rfl
          · rw [if_neg hpe]
            have hes : (emitSymbol b2 (pyLower nm0) attrs payload).isSome
                = true := by
              apply emitSymbol_isSome
              simp only [Bool.and_eq_true, Bool.or_eq_true,
                decide_eq_true_eq, Bool.not_eq_true'] at hcond
              obtain ⟨hname, hcl⟩ := hcond
              rcases hname with h | h
              · exact Or.inl h
              · rcases hqr with hq | hq
                · exfalso
                  rw [h, hcl] at hq
                  simp at hq
                · exact Or.inr hq
            cases he2 : emitSymbol b2 (pyLower nm0) attrs payload with
            | none => rw [he2] at hes; simp at hes
            | some b3 => rfl
      · rw [if_neg hcond]
        rfl

lemma previewStep_isSome (w : Nat) {c : Char} {cs : List Char} (st : PState)
    (hs : tagSafePrev (c :: cs) = true) :
    (previewStep w c cs st).isSome = true := by
  unfold previewStep
  unfold tagSafePrev at hs
  cases hm : tagMatchAt (c :: cs) with
  | none =>
    by_cases hnl : c = '\n'
    · simp [hnl]
    · simp [hnl]
  | some q =>
    obtain ⟨closing, nm0, attrs, rest⟩ := q
    simp only
    rw [hm] at hs
    simp only [Bool.or_eq_true, Bool.not_eq_true', beq_eq_false_iff_ne] at hs
    by_cases h1 : (pyLower nm0 = "center" && !closing) = true
    · rw [if_pos h1]; rfl
    rw [if_neg h1]
    by_cases h2 : (pyLower nm0 = "center" && closing) = true
    · rw [if_pos h2]; rfl
    rw [if_neg h2]
    by_cases h3 : (pyLower nm0 = "right" && !closing) = true
    · rw [if_pos h3]; rfl
    rw [if_neg h3]
    by_cases h4 : (pyLower nm0 = "right" && closing) = true
    · rw [if_pos h4]; rfl
    rw [if_neg h4]
    by_cases h5 : pyLower nm0 = "left"
    · rw [if_pos h5]; rfl
    rw [if_neg h5]
    by_cases h6 : pyLower nm0 = "line"
    · rw [if_pos h6]; rfl
    rw [if_neg h6]
    by_cases h7 : pyLower nm0 = "cut"
    · rw [if_pos h7]; rfl
    rw [if_neg h7]
    by_cases h8 : pyLower nm0 = "feed"
    · rw [if_pos h8]
      rcases hs with h | h
      · exact absurd h8 h
      · cases hpi : pyInt? (parseAttr attrs "n" "1") with
        | none => rw [hpi] at h; simp at h
        | some n => rfl
    rw [if_neg h8]
    by_cases h9 : pyLower nm0 = "barcode"
    · rw [if_pos h9]
      cases hsp : splitSub (closeTagLit "barcode") rest with
      | none => rfl
      | some pp =>
        obtain ⟨payload, rest2⟩ := pp
        simp only
        by_cases hpe : payload.isEmpty
        · rw [if_pos hpe]; rfl
        · rw [if_neg hpe]; rfl
    rw [if_neg h9]
    by_cases h10 : pyLower nm0 = "qr"
    · rw [if_pos h10]
      cases hsp : splitSub (closeTagLit "qr") rest with
      | none => rfl
      | some pp =>
        obtain ⟨payload, rest2⟩ := pp
        simp only
        by_cases hpe : payload.isEmpty
        · rw [if_pos hpe]; rfl
        · rw [if_neg hpe]; rfl
    rw [if_neg h10]
    by_cases h11 : pyLower nm0 = "image"
    · rw [if_pos h11]; rfl
    rw [if_neg h11]
    rfl

lemma renderLoopB_isSome : ∀ (f : Nat) (s : List Char) (b : Builder)
    (tb : List Char), s.length < f →
    (∀ u, u <:+ s → tagSafeBin u = true) →
    (renderLoopB f s b tb).isSome = true := by
  intro f
  induction f with
  | zero => intro s b tb h1 _; omega
  | succ f ih =>
    intro s b tb h1 hsafe
    cases s with
    | nil => rfl
    | cons c cs =>
      simp only [renderLoopB]
      cases hstep : renderStep c cs b tb with
      | none =>
        have hsome := renderStep_isSome b tb
          (hsafe (c :: cs) (List.suffix_refl _))
        rw [hstep] at hsome
        simp at hsome
      | some t =>
        obtain ⟨s2, b2, tb2⟩ := t
        have hspec := renderStep_spec hstep
        simp only [List.length_cons] at h1
        have hlen := hspec.2
        exact ih s2 b2 tb2 (by omega)
          (fun u hu => hsafe u (hu.trans hspec.1))

lemma previewLoop_isSome (w : Nat) : ∀ (f : Nat) (s : List Char) (st : PState),
    s.length < f →
    (∀ u, u <:+ s → tagSafePrev u = true) →
    (previewLoop w f s st).isSome = true := by
  intro f
  induction f with
  | zero => intro s st h1 _; omega
  | succ f ih =>
    intro s st h1 hsafe
    cases s with
    | nil => rfl
    | cons c cs =>
      simp only [previewLoop]
      cases hstep : previewStep w c cs st with
      | none =>
        have hsome := previewStep_isSome w st
          (hsafe (c :: cs) (List.suffix_refl _))
        rw [hstep] at hsome
        simp at hsome
      | some t =>
        obtain ⟨s2, st2⟩ := t
        have hspec := previewStep_spec hstep
        simp only [List.length_cons] at h1
        have hlen := hspec.2
        exact ih s2 st2 (by omega)
          (fun u hu => hsafe u (hu.trans hspec.1))

lemma forall_suffix_of_drop (P : List Char → Prop) (s : List Char)
    (h : ∀ i, i ≤ s.length → P (s.drop i)) : ∀ u, u <:+ s → P u := by
  intro u hu
  obtain ⟨pre, rfl⟩ := hu
  have := h pre.length (by simp)
  simpa [List.drop_left] using this

/-- C2 (amended): missing variables, malformed loop data, unavailable image
sources, and unavailable/failing symbol generators do degrade to placeholder
text, and rendering returns normally whenever, in the loop-expanded and
variable-substituted content, every `feed` tag's `n` attribute and every
opening `qr` tag's `size` attribute parse as integers and every `line` tag's
`char` attribute is cp437-encodable.  (Without those attribute conditions
rendering CAN raise — see the counterexample.) -/
theorem render_no_raise_of_safe_attrs (w : Nat) (t : String) (vars : Bindings) :
    ((∀ i, i ≤ (expandedContent t vars).length →
        tagSafePrev ((expandedContent t vars).drop i) = true) →
      (renderPreviewFn w t vars).isSome = true) ∧
    ((∀ i, i ≤ (expandedContent t vars).length →
        tagSafeBin ((expandedContent t vars).drop i) = true) →
      (renderBytes w t vars).isSome = true) := by
  constructor
  · intro h
    have hall := forall_suffix_of_drop (fun u => tagSafePrev u = true)
      (expandedContent t vars) h
    have hsome := previewLoop_isSome w ((expandedContent t vars).length + 1)
      (expandedContent t vars) ⟨[], [], .left⟩ (by omega) hall
    unfold renderPreviewFn
    cases hp : previewAux w (expandedContent t vars) ⟨[], [], .left⟩ with
    | none =>
      unfold previewAux at hp
      rw [hp] at hsome
      simp at hsome
    | some st => rfl
  · intro h
    have hall := forall_suffix_of_drop (fun u => tagSafeBin u = true)
      (expandedContent t vars) h
    have hsome := renderLoopB_isSome ((expandedContent t vars).length + 1)
      (expandedContent t vars) (initB w) [] (by omega) hall
    unfold renderBytes
    unfold renderContentAux
    cases hr : renderLoopB ((expandedContent t vars).length + 1)
        (expandedContent t vars) (initB w) [] with
    | none => rw [hr] at hsome; simp at hsome
    | some bld => rfl

/-- C2 counterexample: render is not exception-free on every input — a
`feed` tag with a non-integer `n` attribute raises `int()`'s `ValueError` in
the preview path (and the binary path alike), and a `line` tag whose `char`
attribute is outside cp437 raises `UnicodeEncodeError` in the binary path. -/
theorem render_raises_on_bad_attr :
    renderPreviewFn 48 "[feed n=\"x\"]" [] = none ∧
    renderBytes 48 "[line char=\"€\"]" [] = none := by
  constructor
  · decide
  · decide

theorem render_no_raise_of_safe_attrs_witness :
    (renderPreviewFn 10 "Hi [bold]x[/bold]\n[feed n=2][cut]" []).isSome
      = true ∧
    (renderBytes 10 "Hi [bold]x[/bold]\n[feed n=2][cut]" []).isSome = true :=
  ⟨(render_no_raise_of_safe_attrs 10 "Hi [bold]x[/bold]\n[feed n=2][cut]" []).1
      (by decide),
   (render_no_raise_of_safe_attrs 10 "Hi [bold]x[/bold]\n[feed n=2][cut]" []).2
      (by decide)⟩
